import Mathlib

/-!
Verification development for the `lal-checkers` Basic IR frontend.

Shallow embedding of:
* `lalcheck/irs/basic/tree.py` — the Basic IR node model;
* `lalcheck/irs/basic/frontends/lal.py` — the libadalang → Basic IR lowering
  (`_gen_ir` and its nested transforms), the constant expression evaluator
  (`ConstExprEvaluator`), the universal-type normalizer
  (`ConvertUniversalTypes`) and `extract_programs`.

Conventions:
* Python exceptions are modelled with `Except`: `NotImplementedError` raised by
  `unimplemented` becomes `Err.unsupported`, `NotConstExprError` becomes
  `Err.notConst`, and other runtime exceptions (`KeyError`, `TypeError`,
  `IndexError`, `StopIteration`, `AttributeError`) become `Err.pyErr`.
* Node identity of pre-allocated `LabelStmt` objects is modelled by `LabelId`
  values: source label declarations by their declaration id, synthesized loop
  exit labels by the per-base-name fresh counter value (`fresh_name`).
* `orig_node` diagnostic back-links and pretty printing carry no semantic
  content for the verified claims and are not modelled.
* The modules `lalcheck/constants.py`, `lalcheck/utils.py` and
  `lalcheck/irs/basic/visitors.py` are not among the provided sources; the
  few facts needed from them (literal spellings, the per-base fresh counter,
  the default child-visiting behaviour of `ImplicitVisitor`) are modelled from
  the specification and marked as such at the definitions involved.
-/

set_option maxHeartbeats 1000000

namespace LAL

/-- Binary operator symbols of the operator registry (`constants.ops` as used by
`tree.py`'s `bin_ops` table and `lal.py`): comparison, arithmetic (`+`, `-`),
logical `and`/`or`, and range construction `..`. -/
inductive BinOp
  | plus | minus | lt | le | eq | neq | ge | gt | andB | orB | dotdot
deriving DecidableEq, Repr

/-- Unary operator symbols of the operator registry (`tree.py`'s `un_ops` plus
the `GetFirst`/`GetLast` attribute operators used by `lal.py`). -/
inductive UnOp
  | notB | neg | address | deref | getFirst | getLast
deriving DecidableEq, Repr

/-- Type hints carried by IR expressions: the extraction context's standard
boolean and integer types, the two compiler-internal universal types, or some
other source type declaration (identified by a declaration id). -/
inductive TypeHint
  | bool | int | universalInt | universalReal | decl (n : Nat)
deriving DecidableEq, Repr

/-- Values manipulated by `ConstExprEvaluator`: Python ints, strings (Ada
boolean literals `'True'`/`'False'`, enumeration literal texts, the null
literal) and `ConstExprEvaluator.Range` objects. -/
inductive Val
  | int (n : Int)
  | str (s : String)
  | range (first last : Val)
deriving DecidableEq, Repr

/-- Purpose tags (`lalcheck/irs/basic/purpose.py` via its `lal.py` call sites):
`SyntheticVariable()` for compiler temporaries, `DerefCheck(...)` on the
assumption guarding an explicit dereference. -/
inductive PurposeTag
  | syntheticVariable
  | derefCheck
deriving DecidableEq, Repr

/-- `irt.Variable`: a name, an optional purpose tag and a type hint. -/
structure Variable where
  name : String
  purpose : Option PurposeTag
  hint : TypeHint
deriving DecidableEq, Repr

/-- Identity of a `LabelStmt` node. The label pre-pass allocates one node per
source label declaration (`src declId`); each loop lowering allocates one fresh
exit label, identified by the per-base-name counter value used by
`fresh_name('exit_loop')` / `fresh_name('exit_while_loop')`. -/
inductive LabelId
  | src (declId : Nat)
  | exitLoop (n : Nat)
  | exitWhile (n : Nat)
deriving DecidableEq, Repr

/-- Basic IR expressions (`tree.py`: `Identifier`, `Lit`, `BinExpr`, `UnExpr`).
`Identifier.name` holds the `irt.Variable` that `lal.py` stores there; every
node carries its `type_hint` user datum. -/
inductive Expr
  | ident (v : Variable) (hint : TypeHint)
  | lit (val : Val) (hint : TypeHint)
  | bin (lhs : Expr) (op : BinOp) (rhs : Expr) (hint : TypeHint)
  | un (op : UnOp) (e : Expr) (hint : TypeHint)
deriving DecidableEq, Repr

/-- The `type_hint` user datum of an expression node (`expr.data.type_hint`). -/
def Expr.hint : Expr → TypeHint
  | .ident _ h => h
  | .lit _ h => h
  | .bin _ _ _ h => h
  | .un _ _ h => h

/-- Basic IR statements. `split` holds the ordered branch list that every
`lal.py` construction site passes (the N-ary reading mandated by the spec);
the strictly binary `SplitStmt.__init__` signature found in the provided
`tree.py` is modelled separately by `splitStmtInit` below. `goto`/`label` are
modelled from the spec (`Goto(label)`, `Label(name)`, a `Label` node being a
singleton referenced by every `Goto` targeting it): the provided `tree.py`
predates these node classes although `lal.py` constructs them. -/
inductive Stmt
  | assign (var : Expr) (expr : Expr)
  | split (branches : List (List Stmt))
  | loopS (body : List Stmt)
  | read (var : Expr)
  | use (var : Expr)
  | assume (expr : Expr) (purpose : Option PurposeTag)
  | goto (label : LabelId)
  | label (id : LabelId)

/-- `irt.Program`: the ordered statement list of one lowered subprogram. -/
structure Program where
  stmts : List Stmt

/-- The branch storage of `tree.py`'s `SplitStmt`: exactly two positional
branch lists `fst_stmts` and `snd_stmts`. -/
structure SplitStmtNode (α : Type) where
  fst_stmts : α
  snd_stmts : α

/-- A positional Python call of `tree.py`'s `SplitStmt.__init__`: its required
positional parameters are `fst_stmts` and `snd_stmts`, so a call supplying any
other number of positional arguments raises `TypeError`. -/
def splitStmtInit (args : List α) : Except String (SplitStmtNode α) :=
  match args with
  | [f, s] => .ok ⟨f, s⟩
  | _ => .error "TypeError: SplitStmt.init takes exactly 2 positional arguments"

/-- `ADA_TRUE` from `lal.py`. -/
def ADA_TRUE : String := "True"

/-- `ADA_FALSE` from `lal.py`. -/
def ADA_FALSE : String := "False"

/-- `ConstExprEvaluator.to_bool`: `x == ADA_TRUE` (a total Python comparison:
any non-`'True'` value, of any type, maps to false). -/
def toBoolV (x : Val) : Bool := x == .str ADA_TRUE

/-- `ConstExprEvaluator.from_bool`. -/
def fromBool (x : Bool) : Val := .str (if x then ADA_TRUE else ADA_FALSE)

/-- Errors raised while evaluating: the recoverable `NotConstExprError`, or an
ordinary Python exception (`TypeError`/`AttributeError`) escaping an operator
rule. -/
inductive EvalErr
  | notConst
  | pyErr (msg : String)
deriving DecidableEq, Repr

/-- Python 2 `==` on the evaluator's values: ints and strings by value, mixed
types unequal. `Range` defines no `__eq__`, so two `Range` objects compare by
identity; since every evaluation of a `DOT_DOT` node builds a fresh object, a
`Range` operand is never equal to the other operand. -/
def pyEq : Val → Val → Bool
  | .int a, .int b => a == b
  | .str a, .str b => a == b
  | _, _ => false

/-- Python 2 `<` as exercised by the evaluator: ints by value, strings
lexicographically, mixed int/str by Python 2's type-name ordering
(`'int' < 'str'`); orderings involving `Range` objects are not exercised by the
source and are modelled as a crash. -/
def pyLt : Val → Val → Except EvalErr Bool
  | .int a, .int b => .ok (decide (a < b))
  | .str a, .str b => .ok (decide (a < b))
  | .int _, .str _ => .ok true
  | .str _, .int _ => .ok false
  | _, _ => .error (.pyErr "unordered types")

/-- Python 2 `<=`, same conventions as `pyLt`. -/
def pyLe : Val → Val → Except EvalErr Bool
  | .int a, .int b => .ok (decide (a ≤ b))
  | .str a, .str b => .ok (decide (a ≤ b))
  | .int _, .str _ => .ok true
  | .str _, .int _ => .ok false
  | _, _ => .error (.pyErr "unordered types")

/-- Python `+` on the evaluator's values: int addition or string concatenation;
anything else raises `TypeError`. -/
def pyAdd : Val → Val → Except EvalErr Val
  | .int a, .int b => .ok (.int (a + b))
  | .str a, .str b => .ok (.str (a ++ b))
  | _, _ => .error (.pyErr "TypeError: unsupported operand types for add")

/-- Python `-` on the evaluator's values. -/
def pySub : Val → Val → Except EvalErr Val
  | .int a, .int b => .ok (.int (a - b))
  | _, _ => .error (.pyErr "TypeError: unsupported operand types for sub")

/-- `ConstExprEvaluator.BinOps`: the fixed rule table for binary operators,
keyed by operator symbol. Every binary symbol of the registry has a rule. -/
def binRuleOf : BinOp → Option (Val → Val → Except EvalErr Val)
  | .andB => some (fun x y => .ok (fromBool (toBoolV x && toBoolV y)))
  | .orB => some (fun x y => .ok (fromBool (toBoolV x || toBoolV y)))
  | .neq => some (fun x y => .ok (fromBool (!pyEq x y)))
  | .eq => some (fun x y => .ok (fromBool (pyEq x y)))
  | .lt => some (fun x y => (pyLt x y).map fromBool)
  | .le => some (fun x y => (pyLe x y).map fromBool)
  | .ge => some (fun x y => (pyLe y x).map fromBool)
  | .gt => some (fun x y => (pyLt y x).map fromBool)
  | .dotdot => some (fun x y => .ok (.range x y))
  | .plus => some pyAdd
  | .minus => some pySub

/-- `ConstExprEvaluator.UnOps`: the fixed rule table for unary operators.
`Address` and `Deref` have no rule: looking them up raises `KeyError`, turned
into `NotConstExprError` by `visit_unexpr`. -/
def unRuleOf : UnOp → Option (Val → Except EvalErr Val)
  | .notB => some (fun x => .ok (fromBool (!toBoolV x)))
  | .neg => some (fun x =>
      match x with
      | .int n => .ok (.int (-n))
      | _ => .error (.pyErr "TypeError: bad operand type for unary neg"))
  | .getFirst => some (fun x =>
      match x with
      | .range f _ => .ok f
      | _ => .error (.pyErr "AttributeError: first"))
  | .getLast => some (fun x =>
      match x with
      | .range _ l => .ok l
      | _ => .error (.pyErr "AttributeError: last"))
  | .address => none
  | .deref => none

/-- `ConstExprEvaluator.eval`/`visit`: literals evaluate to their own value,
identifiers raise `NotConstExprError` (`visit_ident`), binary/unary expressions
look up the operator symbol in the fixed rule table (`KeyError` being turned
into `NotConstExprError`) and evaluate the operands first-to-last, any operand
failure propagating. The identity-keyed memoization of `visit` is semantically
transparent for this pure function and is not modelled. -/
def eval : Expr → Except EvalErr Val
  | .lit v _ => .ok v
  | .ident _ _ => .error .notConst
  | .bin l op r _ =>
    match binRuleOf op with
    | none => .error .notConst
    | some f =>
      match eval l with
      | .error e => .error e
      | .ok x =>
        match eval r with
        | .error e => .error e
        | .ok y => f x y
  | .un op e _ =>
    match unRuleOf op with
    | none => .error .notConst
    | some f =>
      match eval e with
      | .error e => .error e
      | .ok x => f x

/-- The lal binary operator node kinds dispatched by `transform_expr`.
`andThen`/`orElse` are recognized before the `_lal_op_type_2_symbol` lookup;
`mult` stands for a lal operator kind with no entry in that table. -/
inductive ABinOp
  | lt | le | eq | neq | ge | gt | andB | orB | plus | minus | doubleDot
  | andThen | orElse
  | mult
deriving DecidableEq, Repr

/-- The lal unary operator node kinds; `absOp` stands for a kind with no entry
in `_lal_op_type_2_symbol`. -/
inductive AUnOp
  | minus | notOp
  | absOp
deriving DecidableEq, Repr

/-- `_lal_op_type_2_symbol` at arity 2 (`none` models a `KeyError` in
`transform_operator`). -/
def lalBinOp2Symbol : ABinOp → Option BinOp
  | .lt => some .lt
  | .le => some .le
  | .eq => some .eq
  | .neq => some .neq
  | .ge => some .ge
  | .gt => some .gt
  | .andB => some .andB
  | .orB => some .orB
  | .plus => some .plus
  | .minus => some .minus
  | .doubleDot => some .dotdot
  | .andThen => none
  | .orElse => none
  | .mult => none

/-- `_lal_op_type_2_symbol` at arity 1. -/
def lalUnOp2Symbol : AUnOp → Option UnOp
  | .minus => some .neg
  | .notOp => some .notB
  | .absOp => none

/-- `_attr_2_unop`: attribute text → unary operator (`KeyError` on others). -/
def attr2unop (a : String) : Option UnOp :=
  if a = "Access" then some .address
  else if a = "First" then some .getFirst
  else if a = "Last" then some .getLast
  else none

mutual
/-- The lal expression nodes handled by `transform_expr`, each carrying its
`p_expression_type` (as a `TypeHint`). `identRef` packages
`p_referenced_decl` and the identifier's text; `othersDesignator` is the
`when others` choice node; `unsupportedE` stands for any other node kind
(which `transform_expr` passes to `unimplemented`). -/
inductive AExpr
  | paren (e : AExpr)
  | binOp (op : ABinOp) (left right : AExpr) (etype : TypeHint)
  | unOp (op : AUnOp) (e : AExpr) (etype : TypeHint)
  | ifExpr (cond thenE elseE : AExpr) (etype : TypeHint)
  | identRef (ref : ARef) (text : String) (etype : TypeHint)
  | intLit (n : Int) (etype : TypeHint)
  | nullLit (etype : TypeHint)
  | derefE (pfx : AExpr) (etype : TypeHint)
  | attrRef (attr : String) (pfx : AExpr) (etype : TypeHint)
  | othersDesignator
  | unsupportedE (tag : String)

/-- What an identifier's `p_referenced_decl` resolves to: an object
declaration (keyed in `var_decls` by declaration id and text), an enumeration
literal of an enum type declaration, a number declaration (whose expression is
inlined), a signed integer type declaration (whose range expression is
inlined), or any other declaration kind (which falls through to
`unimplemented`). -/
inductive ARef
  | objectDecl (declId : Nat)
  | enumLit (enumTypeId : Nat)
  | numberDecl (e : AExpr)
  | typeDeclSignedInt (rangeE : AExpr)
  | otherRef
end

/-- `p_expression_type` of an AST expression (parenthesized expressions share
the inner expression's type; the default constant stands for nodes whose type
is never consulted by the lowering). -/
def AExpr.etypeOf : AExpr → TypeHint
  | .paren e => e.etypeOf
  | .binOp _ _ _ t => t
  | .unOp _ _ t => t
  | .ifExpr _ _ _ t => t
  | .identRef _ _ t => t
  | .intLit _ t => t
  | .nullLit t => t
  | .derefE _ t => t
  | .attrRef _ _ t => t
  | .othersDesignator => .decl 0
  | .unsupportedE _ => .decl 0

/-- The lal statement nodes handled by `transform_stmt`. Loops carry the node
identity used by the loop stack (`loopId`); a `namedS` wrapper models
`lal.NamedStmt`, whose inner statement is transformed directly. `unsupportedS`
stands for any other statement kind (passed to `unimplemented`). -/
inductive AStmt
  | assignS (destDeclId : Nat) (destText : String) (destType : TypeHint) (e : AExpr)
  | ifS (cond : AExpr) (thenB elseB : List AStmt)
  | caseS (sel : AExpr) (alts : List (List AExpr × List AStmt))
  | loopSt (loopId : Nat) (body : List AStmt)
  | whileS (loopId : Nat) (cond : AExpr) (body : List AStmt)
  | forS (body : List AStmt)
  | labelS (declId : Nat)
  | gotoS (declId : Nat)
  | namedS (inner : AStmt)
  | exitS (loopName : Option Nat) (cond : Option AExpr)
  | handlerS (body : List AStmt)
  | unsupportedS (tag : String)

/-- The lal declarations handled by `transform_decl`: type and number
declarations (erased), object declarations (declaration id, declared names,
designated type declaration, optional default expression), and anything else
(passed to `unimplemented`). -/
inductive ADecl
  | typeOrNumberDecl
  | objectDecl (declId : Nat) (ids : List String) (tdecl : TypeHint) (dflt : Option AExpr)
  | unsupportedD (tag : String)

/-- A lal subprogram body: its declarative part and its statements. -/
structure ASubp where
  decls : List ADecl
  stmts : List AStmt

/-- Failure of a lowering step: `NotImplementedError` raised by
`unimplemented`, an escaping `NotConstExprError`, or another Python runtime
exception. -/
inductive Err
  | unsupported (msg : String)
  | notConst
  | pyErr (msg : String)
deriving DecidableEq, Repr

/-- Conversion of an evaluator failure into a lowering failure: an uncaught
`NotConstExprError` or Python exception propagates unchanged. -/
def evalErrToErr : EvalErr → Err
  | .notConst => .notConst
  | .pyErr m => .pyErr m

/-- The per-base-name fresh counters of the `KeyCounter` held in `tmp_vars`
(modelled from the spec: synthetic names are base name plus a per-base
monotonically increasing counter; the bases used are `tmp`, `exit_loop` and
`exit_while_loop`). -/
structure KC where
  tmp : Nat
  el : Nat
  ew : Nat
deriving DecidableEq, Repr

/-- The counters at the start of one `_gen_ir` invocation. -/
def KC.init : KC := ⟨0, 0, 0⟩

/-- The `var_decls` registry: (declaration id, surface name) → the shared
`irt.Variable`, written as an association list with latest binding first. -/
def VarDecls := List ((Nat × String) × Variable)

/-- Dictionary lookup in `var_decls` (`None` models a `KeyError`). -/
def vdLookup (vd : VarDecls) (k : Nat × String) : Option Variable :=
  (List.find? (fun p => p.1 == k) vd).map (fun p => p.2)

/-- Dictionary insertion into `var_decls`. -/
def vdInsert (vd : VarDecls) (k : Nat × String) (v : Variable) : VarDecls :=
  (k, v) :: vd

/-- The statement block built by `gen_split_stmt` once the condition has been
transformed: the condition's pre-statements followed by one two-branch split,
branch one assuming the condition, branch two assuming its negation (the
negation node reusing the condition's type hint). -/
def genSplitCore (ce : Expr) (cpre : List Stmt) (thenStmts elseStmts : List Stmt) : List Stmt :=
  cpre ++ [Stmt.split [Stmt.assume ce none :: thenStmts,
                       Stmt.assume (.un .notB ce ce.hint) none :: elseStmts]]

/-- `transform_expr` from `_gen_ir`: lowers a lal expression to a pair of
pre-statements and an IR expression, threading the fresh-name counters.
The two `gen_split_stmt` call sites inside expressions (if-expressions and
short-circuit operators) are written as the condition's `transform_expr`
followed by `genSplitCore`, in the source's evaluation order: for an
if-expression, the temporary is allocated first, the two arm expressions are
transformed next and the condition last; for a short-circuit operator, the
temporary is allocated first, the inner split on the right operand is built
before the outer split's condition (the left operand) is transformed. -/
def transformExpr (vd : VarDecls) : AExpr → KC → Except Err (List Stmt × Expr × KC)
  | .paren e, kc => transformExpr vd e kc
  | .binOp op l r ty, kc =>
    if op = .andThen then
      -- transform_short_circuit_ops, and-then shape
      let res : Expr := .ident ⟨"tmp" ++ toString kc.tmp, some .syntheticVariable, ty⟩ ty
      let resEqTrue : Stmt := .assign res (.lit (.str ADA_TRUE) ty)
      let resEqFalse : Stmt := .assign res (.lit (.str ADA_FALSE) ty)
      match transformExpr vd r ⟨kc.tmp + 1, kc.el, kc.ew⟩ with
      | .error er => .error er
      | .ok (rpre, re, kc2) =>
        match transformExpr vd l kc2 with
        | .error er => .error er
        | .ok (lpre, le, kc3) =>
          .ok (genSplitCore le lpre
                 (genSplitCore re rpre [resEqTrue] [resEqFalse])
                 [resEqFalse], res, kc3)
    else if op = .orElse then
      -- transform_short_circuit_ops, or-else shape
      let res : Expr := .ident ⟨"tmp" ++ toString kc.tmp, some .syntheticVariable, ty⟩ ty
      let resEqTrue : Stmt := .assign res (.lit (.str ADA_TRUE) ty)
      let resEqFalse : Stmt := .assign res (.lit (.str ADA_FALSE) ty)
      match transformExpr vd r ⟨kc.tmp + 1, kc.el, kc.ew⟩ with
      | .error er => .error er
      | .ok (rpre, re, kc2) =>
        match transformExpr vd l kc2 with
        | .error er => .error er
        | .ok (lpre, le, kc3) =>
          .ok (genSplitCore le lpre
                 [resEqTrue]
                 (genSplitCore re rpre [resEqTrue] [resEqFalse]), res, kc3)
    else
      match transformExpr vd l kc with
      | .error er => .error er
      | .ok (lpre, le, kc1) =>
        match transformExpr vd r kc1 with
        | .error er => .error er
        | .ok (rpre, re, kc2) =>
          match lalBinOp2Symbol op with
          | none => .error (.pyErr "KeyError: lal op type 2 symbol")
          | some o => .ok (lpre ++ rpre, .bin le o re ty, kc2)
  | .unOp op e ty, kc =>
    match transformExpr vd e kc with
    | .error er => .error er
    | .ok (pre, ie, kc1) =>
      match lalUnOp2Symbol op with
      | none => .error (.pyErr "KeyError: lal op type 2 symbol")
      | some o => .ok (pre, .un o ie ty, kc1)
  | .ifExpr c t e ty, kc =>
    let tmp : Expr := .ident ⟨"tmp" ++ toString kc.tmp, some .syntheticVariable, ty⟩ ty
    match transformExpr vd t ⟨kc.tmp + 1, kc.el, kc.ew⟩ with
    | .error er => .error er
    | .ok (tpre, te, kc2) =>
      match transformExpr vd e kc2 with
      | .error er => .error er
      | .ok (epre, ee, kc3) =>
        match transformExpr vd c kc3 with
        | .error er => .error er
        | .ok (cpre, ce, kc4) =>
          .ok (genSplitCore ce cpre
                 (tpre ++ [.assign tmp te])
                 (epre ++ [.assign tmp ee]), tmp, kc4)
  | .identRef ref text ty, kc =>
    match ref with
    | .objectDecl did =>
      match vdLookup vd (did, text) with
      | none => .error (.pyErr "KeyError: var_decls")
      | some v => .ok ([], .ident v ty, kc)
    | .enumLit tid => .ok ([], .lit (.str text) (.decl tid), kc)
    | .numberDecl e => transformExpr vd e kc
    | .typeDeclSignedInt rng => transformExpr vd rng kc
    | .otherRef => .error (.unsupported ("Cannot transform " ++ text))
  | .intLit n ty, kc => .ok ([], .lit (.int n) ty, kc)
  | .nullLit ty, kc => .ok ([], .lit (.str "null") ty, kc)
  | .derefE pfx ty, kc =>
    match transformExpr vd pfx kc with
    | .error er => .error er
    | .ok (ppre, pe, kc1) =>
      .ok (ppre ++ [.assume (.bin pe .neq (.lit (.str "null") pfx.etypeOf) .bool)
                      (some .derefCheck)],
           .un .deref pe ty, kc1)
  | .attrRef attr pfx ty, kc =>
    match transformExpr vd pfx kc with
    | .error er => .error er
    | .ok (ppre, pe, kc1) =>
      match attr2unop attr with
      | none => .error (.pyErr "KeyError: attr 2 unop")
      | some u => .ok (ppre, .un u pe ty, kc1)
  | .othersDesignator, _ => .error (.unsupported "Cannot transform others designator")
  | .unsupportedE tag, _ => .error (.unsupported ("Cannot transform " ++ tag))

/-- `gen_split_stmt` as called from statement context: transform the condition,
then build the two-branch split block around the already transformed branch
statements. -/
def genSplitStmt (vd : VarDecls) (cond : AExpr) (thenStmts elseStmts : List Stmt) (kc : KC) :
    Except Err (List Stmt × KC) :=
  match transformExpr vd cond kc with
  | .error er => .error er
  | .ok (cpre, ce, kc1) => .ok (genSplitCore ce cpre thenStmts elseStmts, kc1)

/-- `transform_short_circuit_ops`, standalone: allocate the synthetic boolean
temporary, then build the two-level nested split (inner split on the right
operand first, outer split on the left operand last) and return it as the
pre-statement block together with the reference to the temporary. -/
def transformShortCircuitOps (vd : VarDecls) (isAndThen : Bool) (l r : AExpr)
    (boolHint : TypeHint) (kc : KC) : Except Err (List Stmt × Expr × KC) :=
  let res : Expr := .ident ⟨"tmp" ++ toString kc.tmp, some .syntheticVariable, boolHint⟩ boolHint
  let resEqTrue : Stmt := .assign res (.lit (.str ADA_TRUE) boolHint)
  let resEqFalse : Stmt := .assign res (.lit (.str ADA_FALSE) boolHint)
  match transformExpr vd r ⟨kc.tmp + 1, kc.el, kc.ew⟩ with
  | .error er => .error er
  | .ok (rpre, re, kc2) =>
    match transformExpr vd l kc2 with
    | .error er => .error er
    | .ok (lpre, le, kc3) =>
      if isAndThen then
        .ok (genSplitCore le lpre
               (genSplitCore re rpre [resEqTrue] [resEqFalse])
               [resEqFalse], res, kc3)
      else
        .ok (genSplitCore le lpre
               [resEqTrue]
               (genSplitCore re rpre [resEqTrue] [resEqFalse]), res, kc3)

/-- `gen_case_condition`'s `gen_lit`: an int value becomes a literal node with
the standard integer type hint; any other value raises `NotImplementedError`. -/
def genLit (v : Val) : Except Err Expr :=
  match v with
  | .int n => .ok (.lit (.int n) .int)
  | _ => .error (.unsupported "Cannot transform literal")

/-- `gen_case_condition`'s `gen_single`: an int value becomes an equality test
against the selector; a `Range` with int bounds becomes the conjunction
`selector >= first and selector <= last`; anything else raises
`NotImplementedError` (`gen_lit` never fails on the values reaching it from
these two branches). -/
def genSingle (sel : Expr) (v : Val) : Except Err Expr :=
  match v with
  | .int n => .ok (.bin sel .eq (.lit (.int n) .int) .bool)
  | .range (.int a) (.int b) =>
    .ok (.bin (.bin sel .ge (.lit (.int a) .int) .bool)
              .andB
              (.bin sel .le (.lit (.int b) .int) .bool) .bool)
  | _ => .error (.unsupported "Cannot transform when condition")

/-- Sequential effectful map, as a Python list comprehension performs it: the
first raised error aborts the whole comprehension. -/
def mapComp (f : α → Except ε β) : List α → Except ε (List β)
  | [] => .ok []
  | x :: xs =>
    match f x with
    | .error e => .error e
    | .ok y =>
      match mapComp f xs with
      | .error e => .error e
      | .ok ys => .ok (y :: ys)

/-- `binexpr_builder(bin_ops[OR], ctx.evaluator.bool)`. -/
def orBuilder (l r : Expr) : Expr := .bin l .orB r .bool

/-- Python's `reduce` of a two-argument function over a sequence with no
initial value: `none` models the `TypeError` raised on an empty sequence,
otherwise a left fold seeded with the first element. -/
def reduceL (f : α → α → α) : List α → Option α
  | [] => none
  | x :: xs => some (xs.foldl f x)

/-- `gen_case_condition`: one condition per value via `gen_single`, combined
with the left-fold `or` disjunction when there is more than one (the empty
choice list would index `conditions[0]` out of range). -/
def genCaseCondition (sel : Expr) (values : List Val) : Except Err Expr :=
  match mapComp (genSingle sel) values with
  | .error er => .error er
  | .ok conds =>
    match conds with
    | [] => .error (.pyErr "IndexError: conditions")
    | [c] => .ok c
    | c :: cs => .ok (cs.foldl orBuilder c)

/-- Whether a case choice node is a `lal.OthersDesignator`. -/
def isOthersChoice : AExpr → Bool
  | .othersDesignator => true
  | _ => false

/-- The evaluation of the choices of one non-`others` alternative:
`ctx.evaluator.eval(transform_expr(choice)[1])` per choice, dropping the
choice's pre-statements, an escaping `NotConstExprError` aborting the
subprogram's lowering. -/
def evalChoices (vd : VarDecls) : List AExpr → KC → Except Err (List Val × KC)
  | [], kc => .ok ([], kc)
  | c :: cs, kc =>
    match transformExpr vd c kc with
    | .error er => .error er
    | .ok (_, ce, kc1) =>
      match eval ce with
      | .error e => .error (evalErrToErr e)
      | .ok v =>
        match evalChoices vd cs kc1 with
        | .error er => .error er
        | .ok (vs, kc2) => .ok (v :: vs, kc2)

mutual
/-- `transform_stmt` from `_gen_ir`. `L` is the pre-pass label table (the
declaration ids of every label declaration found in the subprogram body) and
`stack` the loop stack of (loop node, exit label) pairs, oldest first. -/
def transformStmt (vd : VarDecls) (L : List Nat) :
    AStmt → List (Nat × LabelId) → KC → Except Err (List Stmt × KC)
  | .assignS did dtext dty e, _, kc =>
    match transformExpr vd e kc with
    | .error er => .error er
    | .ok (pre, ee, kc1) =>
      match vdLookup vd (did, dtext) with
      | none => .error (.pyErr "KeyError: var_decls")
      | some v => .ok (pre ++ [.assign (.ident v dty) ee], kc1)
  | .ifS c tb eb, stack, kc =>
    match transformStmts vd L tb stack kc with
    | .error er => .error er
    | .ok (ts, kc1) =>
      match transformStmts vd L eb stack kc1 with
      | .error er => .error er
      | .ok (es, kc2) => genSplitStmt vd c ts es kc2
  | .caseS sel alts, stack, kc =>
    match transformExpr vd sel kc with
    | .error er => .error er
    | .ok (cpre, selE, kc1) =>
      match transformCaseAlts vd L alts stack kc1 with
      | .error er => .error er
      | .ok (caseAlts, kc2) =>
        match transformOthersAlts vd L alts stack kc2 with
        | .error er => .error er
        | .ok (othersStmts, kc3) =>
          match mapComp (genCaseCondition selE) (caseAlts.map (fun a => a.1)) with
          | .error er => .error er
          | .ok altsConds =>
            match reduceL orBuilder altsConds with
            | none => .error (.pyErr "TypeError: reduce of empty sequence")
            | some disj =>
              let othersCond : Expr := .un .notB disj .bool
              let branches :=
                (List.zip altsConds caseAlts).map
                  (fun p => Stmt.assume p.1 none :: p.2.2)
                ++ othersStmts.map (fun s => Stmt.assume othersCond none :: s)
              .ok (cpre ++ [.split branches], kc3)
  | .loopSt lid body, stack, kc =>
    let lbl : LabelId := .exitLoop kc.el
    match transformStmts vd L body (stack ++ [(lid, lbl)]) ⟨kc.tmp, kc.el + 1, kc.ew⟩ with
    | .error er => .error er
    | .ok (bs, kc2) => .ok ([.loopS bs, .label lbl], kc2)
  | .whileS lid c body, stack, kc =>
    match transformExpr vd c kc with
    | .error er => .error er
    | .ok (cpre, ce, kc1) =>
      let notC : Expr := .un .notB ce ce.hint
      let lbl : LabelId := .exitWhile kc1.ew
      match transformStmts vd L body (stack ++ [(lid, lbl)]) ⟨kc1.tmp, kc1.el, kc1.ew + 1⟩ with
      | .error er => .error er
      | .ok (bs, kc3) =>
        .ok ([.loopS (cpre ++ [.assume ce none] ++ bs), .assume notC none, .label lbl], kc3)
  | .forS _, _, kc =>
    -- the source's ForLoopStmt branch is `# todo` and returns the empty list
    .ok ([], kc)
  | .labelS did, _, kc =>
    if L.contains did then .ok ([.label (.src did)], kc)
    else .error (.pyErr "KeyError: labels")
  | .gotoS did, _, kc =>
    if L.contains did then .ok ([.goto (.src did)], kc)
    else .error (.pyErr "KeyError: labels")
  | .namedS inner, stack, kc => transformStmt vd L inner stack kc
  | .exitS none cond, stack, kc =>
    -- unnamed exit: loop_stack[-1]
    match stack.getLast? with
    | none => .error (.pyErr "IndexError: loop stack")
    | some (_, lbl) =>
      match cond with
      | none => .ok ([.goto lbl], kc)
      | some c => genSplitStmt vd c [.goto lbl] [] kc
  | .exitS (some nm) cond, stack, kc =>
    -- named exit: first stack entry whose loop node is the referenced loop
    match stack.find? (fun p => p.1 == nm) with
    | none => .error (.pyErr "StopIteration: named loop not in stack")
    | some (_, lbl) =>
      match cond with
      | none => .ok ([.goto lbl], kc)
      | some c => genSplitStmt vd c [.goto lbl] [] kc
  | .handlerS _, _, kc =>
    -- the source's ExceptionHandler branch is `# todo ?` and returns the empty list
    .ok ([], kc)
  | .unsupportedS tag, _, _ => .error (.unsupported ("Cannot transform " ++ tag))

/-- `transform_stmts`: concatenation of the per-statement transforms. -/
def transformStmts (vd : VarDecls) (L : List Nat) :
    List AStmt → List (Nat × LabelId) → KC → Except Err (List Stmt × KC)
  | [], _, kc => .ok ([], kc)
  | s :: rest, stack, kc =>
    match transformStmt vd L s stack kc with
    | .error er => .error er
    | .ok (out1, kc1) =>
      match transformStmts vd L rest stack kc1 with
      | .error er => .error er
      | .ok (out2, kc2) => .ok (out1 ++ out2, kc2)

/-- The `case_alts` comprehension: for each alternative with no `others`
choice, the evaluated choice values and the transformed statements; the
alternatives containing an `others` choice are skipped. -/
def transformCaseAlts (vd : VarDecls) (L : List Nat) :
    List (List AExpr × List AStmt) → List (Nat × LabelId) → KC →
    Except Err (List (List Val × List Stmt) × KC)
  | [], _, kc => .ok ([], kc)
  | (choices, stmts) :: rest, stack, kc =>
    if choices.any isOthersChoice then
      transformCaseAlts vd L rest stack kc
    else
      match evalChoices vd choices kc with
      | .error er => .error er
      | .ok (vals, kc1) =>
        match transformStmts vd L stmts stack kc1 with
        | .error er => .error er
        | .ok (ss, kc2) =>
          match transformCaseAlts vd L rest stack kc2 with
          | .error er => .error er
          | .ok (restAlts, kc3) => .ok ((vals, ss) :: restAlts, kc3)

/-- The `others_potential_stmts` comprehension: the transformed statements of
every alternative containing an `others` choice. -/
def transformOthersAlts (vd : VarDecls) (L : List Nat) :
    List (List AExpr × List AStmt) → List (Nat × LabelId) → KC →
    Except Err (List (List Stmt) × KC)
  | [], _, kc => .ok ([], kc)
  | (choices, stmts) :: rest, stack, kc =>
    if choices.any isOthersChoice then
      match transformStmts vd L stmts stack kc with
      | .error er => .error er
      | .ok (ss, kc1) =>
        match transformOthersAlts vd L rest stack kc1 with
        | .error er => .error er
        | .ok (restStmts, kc2) => .ok (ss :: restStmts, kc2)
    else
      transformOthersAlts vd L rest stack kc
end

/-- `transform_decl`: type/number declarations erase; an object declaration
registers one `Variable` per declared name (before the default expression is
transformed) and emits one `Read` per name when there is no initializer, or
the initializer's pre-statements followed by one `Assign` per name sharing the
single transformed expression node. -/
def transformDecl (vd : VarDecls) (kc : KC) : ADecl → Except Err (List Stmt × VarDecls × KC)
  | .typeOrNumberDecl => .ok ([], vd, kc)
  | .objectDecl did ids tdecl none =>
    let vd' := ids.foldl (fun acc nm => vdInsert acc (did, nm) ⟨nm, none, tdecl⟩) vd
    .ok (ids.map (fun nm => .read (.ident ⟨nm, none, tdecl⟩ tdecl)), vd', kc)
  | .objectDecl did ids tdecl (some e) =>
    let vd' := ids.foldl (fun acc nm => vdInsert acc (did, nm) ⟨nm, none, tdecl⟩) vd
    match transformExpr vd' e kc with
    | .error er => .error er
    | .ok (pre, ee, kc1) =>
      .ok (pre ++ ids.map (fun nm => .assign (.ident ⟨nm, none, tdecl⟩ tdecl) ee), vd', kc1)
  | .unsupportedD tag => .error (.unsupported ("Cannot transform " ++ tag))

/-- `transform_decls`: concatenation of the per-declaration transforms,
threading the growing `var_decls` registry. -/
def transformDecls (vd : VarDecls) (kc : KC) : List ADecl → Except Err (List Stmt × VarDecls × KC)
  | [] => .ok ([], vd, kc)
  | d :: rest =>
    match transformDecl vd kc d with
    | .error er => .error er
    | .ok (out1, vd1, kc1) =>
      match transformDecls vd1 kc1 rest with
      | .error er => .error er
      | .ok (out2, vd2, kc2) => .ok (out1 ++ out2, vd2, kc2)

mutual
/-- The label pre-pass `subp.findall(lal.LabelDecl)`: every label declaration
id anywhere in a statement, including inside for-loop and exception-handler
bodies (which the statement transform later drops). -/
def allLabelsStmt : AStmt → List Nat
  | .labelS i => [i]
  | .ifS _ tb eb => allLabelsStmts tb ++ allLabelsStmts eb
  | .caseS _ alts => allLabelsAlts alts
  | .loopSt _ b => allLabelsStmts b
  | .whileS _ _ b => allLabelsStmts b
  | .forS b => allLabelsStmts b
  | .handlerS b => allLabelsStmts b
  | .namedS s => allLabelsStmt s
  | _ => []

/-- `findall(lal.LabelDecl)` over a statement list. -/
def allLabelsStmts : List AStmt → List Nat
  | [] => []
  | s :: rest => allLabelsStmt s ++ allLabelsStmts rest

/-- `findall(lal.LabelDecl)` over case alternatives. -/
def allLabelsAlts : List (List AExpr × List AStmt) → List Nat
  | [] => []
  | a :: rest => allLabelsStmts a.2 ++ allLabelsAlts rest
end

/-- `_gen_ir`: pre-pass the label table, transform the declarative part (with
an initially empty `var_decls` registry and fresh counters), then the
statements with an initially empty loop stack, and wrap the concatenation in a
`Program`. -/
def genIr (subp : ASubp) : Except Err Program :=
  let L := allLabelsStmts subp.stmts
  match transformDecls [] KC.init subp.decls with
  | .error e => .error e
  | .ok (ds, vd, kc) =>
    match transformStmts vd L subp.stmts [] kc with
    | .error e => .error e
    | .ok (ss, _) => .ok ⟨ds ++ ss⟩

/-- `ConvertUniversalTypes.has_universal_type`. -/
def hasUniversalType (e : Expr) : Bool :=
  e.hint == .universalInt || e.hint == .universalReal

mutual
/-- `ConvertUniversalTypes.try_convert_expr`: attempt constant evaluation with
the expected type; on success a fresh literal node typed with the expected
type, on `NotConstExprError` the structural recursion `expr.visit(self)`;
any other exception escaping the evaluator propagates (only
`NotConstExprError` is caught). -/
def tryConvertExpr (e : Expr) (expected : TypeHint) : Except Err Expr :=
  match eval e with
  | .ok v => .ok (.lit v expected)
  | .error .notConst => visitConvExpr e
  | .error (.pyErr m) => .error (.pyErr m)

/-- The dispatch `expr.visit(self)` for `ConvertUniversalTypes`:
`visit_binexpr` computes the expected type from whichever operand is not
universal (the right operand's type unless it is universal, in which case the
left operand's) and converts both operands with it; `visit_unexpr` visits the
sub-expression; literals and identifiers take `ImplicitVisitor`'s default
(modelled from the spec: the default visitor visits children, and these nodes
have none). -/
def visitConvExpr : Expr → Except Err Expr
  | .bin l op r h =>
    let expected := if hasUniversalType r then l.hint else r.hint
    match tryConvertExpr l expected with
    | .error er => .error er
    | .ok l' =>
      match tryConvertExpr r expected with
      | .error er => .error er
      | .ok r' => .ok (.bin l' op r' h)
  | .un op e h =>
    match visitConvExpr e with
    | .error er => .error er
    | .ok e' => .ok (.un op e' h)
  | e => .ok e
end

mutual
/-- The statement traversal of `ConvertUniversalTypes` (statement dispatch per
`ImplicitVisitor`'s default child visiting, modelled from the spec's
post-order pass). `visit_assign` reads `assign.id.data.type_hint`, but
`tree.py`'s `AssignStmt` stores the target under `var` — the attribute lookup
raises `AttributeError` on every assignment reached by the pass.
`visit_assume` converts the assumption's expression with the standard boolean
expected type. -/
def normalizeStmt : Stmt → Except Err Stmt
  | .assign _ _ => .error (.pyErr "AttributeError: AssignStmt has no attribute id")
  | .assume e p =>
    match tryConvertExpr e .bool with
    | .error er => .error er
    | .ok e' => .ok (.assume e' p)
  | .split bss =>
    match normalizeBranches bss with
    | .error er => .error er
    | .ok bss' => .ok (.split bss')
  | .loopS b =>
    match normalizeStmts b with
    | .error er => .error er
    | .ok b' => .ok (.loopS b')
  | s => .ok s

/-- Child visiting over a statement list. -/
def normalizeStmts : List Stmt → Except Err (List Stmt)
  | [] => .ok []
  | s :: rest =>
    match normalizeStmt s with
    | .error er => .error er
    | .ok s' =>
      match normalizeStmts rest with
      | .error er => .error er
      | .ok rest' => .ok (s' :: rest')

/-- Child visiting over split branches. -/
def normalizeBranches : List (List Stmt) → Except Err (List (List Stmt))
  | [] => .ok []
  | b :: bs =>
    match normalizeStmts b with
    | .error er => .error er
    | .ok b' =>
      match normalizeBranches bs with
      | .error er => .error er
      | .ok bs' => .ok (b' :: bs')
end

/-- `prog.visit(converter)`: the pass mutates the program's statements in
place; modelled as rebuilding the statement list. -/
def normalizeProgram (p : Program) : Except Err Program :=
  match normalizeStmts p.stmts with
  | .error er => .error er
  | .ok ss => .ok ⟨ss⟩

/-- `extract_programs`: lower every subprogram body of the unit (a list
comprehension, so the first raised error aborts the whole extraction with
nothing returned), then run one `ConvertUniversalTypes` pass over every
produced program. -/
def extractPrograms (subps : List ASubp) : Except Err (List Program) :=
  match mapComp genIr subps with
  | .error er => .error er
  | .ok progs =>
    match mapComp normalizeProgram progs with
    | .error er => .error er
    | .ok progs' => .ok progs'

/-- A concrete environment: variable name → value. -/
def Env : Type := String → Val

/-- Environment update. -/
def updEnv (env : Env) (n : String) (v : Val) : Env :=
  fun m => if m = n then v else env m

/-- Concrete evaluation of an IR expression in an environment. -/
def denote (env : Env) : Expr → Except EvalErr Val
  | .ident v _ => .ok (env v.name)
  | .lit v _ => .ok v
  | .bin l op r _ =>
    match binRuleOf op with
    | none => .error .notConst
    | some f =>
      match denote env l with
      | .error e => .error e
      | .ok x =>
        match denote env r with
        | .error e => .error e
        | .ok y => f x y
  | .un op e _ =>
    match unRuleOf op with
    | none => .error .notConst
    | some f =>
      match denote env e with
      | .error e => .error e
      | .ok x => f x

mutual
/-- The environments reachable through one statement: an assignment updates
the assigned variable, an assumption filters by its expression's truth, a
split branches over its alternatives. -/
def runStmt (env : Env) : Stmt → List Env
  | .assign (.ident v _) e =>
    match denote env e with
    | .ok x => [updEnv env v.name x]
    | .error _ => []
  | .assign _ _ => []
  | .assume e _ =>
    match denote env e with
    | .ok x => if toBoolV x then [env] else []
    | .error _ => []
  | .split bss => runBranches env bss
  | _ => []

/-- Sequencing: feed every environment reachable through the head statement
into the rest of the list. -/
def runStmts (env : Env) : List Stmt → List Env
  | [] => [env]
  | s :: rest => runSeq (runStmt env s) rest

/-- Auxiliary sequencing over a list of intermediate environments. -/
def runSeq (envs : List Env) (rest : List Stmt) : List Env :=
  match envs with
  | [] => []
  | e :: es => runStmts e rest ++ runSeq es rest

/-- Branching: union of the feasible paths of each branch. -/
def runBranches (env : Env) : List (List Stmt) → List Env
  | [] => []
  | b :: bs => runStmts env b ++ runBranches env bs
end

mutual
/-- The label statements occurring in a statement, anywhere in its nested
branch and loop bodies. -/
def labelsInStmt : Stmt → List LabelId
  | .label l => [l]
  | .split bss => labelsInBranches bss
  | .loopS b => labelsIn b
  | _ => []

/-- The label statements occurring in a statement list. -/
def labelsIn : List Stmt → List LabelId
  | [] => []
  | s :: rest => labelsInStmt s ++ labelsIn rest

/-- The label statements occurring in split branches. -/
def labelsInBranches : List (List Stmt) → List LabelId
  | [] => []
  | b :: bs => labelsIn b ++ labelsInBranches bs
end

mutual
/-- The goto targets occurring in a statement. -/
def gotosInStmt : Stmt → List LabelId
  | .goto l => [l]
  | .split bss => gotosInBranches bss
  | .loopS b => gotosIn b
  | _ => []

/-- The goto targets occurring in a statement list. -/
def gotosIn : List Stmt → List LabelId
  | [] => []
  | s :: rest => gotosInStmt s ++ gotosIn rest

/-- The goto targets occurring in split branches. -/
def gotosInBranches : List (List Stmt) → List LabelId
  | [] => []
  | b :: bs => gotosIn b ++ gotosInBranches bs
end

mutual
/-- The source label declarations whose `Label` statement the lowering
actually emits: label statements anywhere except inside for-loop and
exception-handler bodies (whose transforms return the empty list). -/
def srcLabelsStmt : AStmt → List Nat
  | .labelS i => [i]
  | .ifS _ tb eb => srcLabels tb ++ srcLabels eb
  | .caseS _ alts => srcLabelsAlts alts
  | .loopSt _ b => srcLabels b
  | .whileS _ _ b => srcLabels b
  | .namedS s => srcLabelsStmt s
  | _ => []

/-- Emitted source labels of a statement list. -/
def srcLabels : List AStmt → List Nat
  | [] => []
  | s :: rest => srcLabelsStmt s ++ srcLabels rest

/-- Emitted source labels of case alternatives. -/
def srcLabelsAlts : List (List AExpr × List AStmt) → List Nat
  | [] => []
  | a :: rest => srcLabels a.2 ++ srcLabelsAlts rest
end

mutual
/-- The source goto targets whose `Goto` statement the lowering actually
emits: goto statements anywhere except inside for-loop and exception-handler
bodies. -/
def srcGotosStmt : AStmt → List Nat
  | .gotoS i => [i]
  | .ifS _ tb eb => srcGotos tb ++ srcGotos eb
  | .caseS _ alts => srcGotosAlts alts
  | .loopSt _ b => srcGotos b
  | .whileS _ _ b => srcGotos b
  | .namedS s => srcGotosStmt s
  | _ => []

/-- Emitted source goto targets of a statement list. -/
def srcGotos : List AStmt → List Nat
  | [] => []
  | s :: rest => srcGotosStmt s ++ srcGotos rest

/-- Emitted source goto targets of case alternatives. -/
def srcGotosAlts : List (List AExpr × List AStmt) → List Nat
  | [] => []
  | a :: rest => srcGotos a.2 ++ srcGotosAlts rest
end

/-- The exit labels of a loop stack. -/
def stackExits (stack : List (Nat × LabelId)) : List LabelId :=
  stack.map (fun p => p.2)

/-- Whether an `Except` computation succeeded. -/
def exceptIsOk : Except ε α → Bool
  | .ok _ => true
  | .error _ => false

/-- Registry used by the C1 single-alternative case scenario: one declared
variable `X`. -/
def c1_vd : VarDecls := [((1, "X"), ⟨"X", none, .decl 5⟩)]

/-- The IR identifier of `X` in the C1 scenario. -/
def c1_selX : Expr := .ident ⟨"X", none, .decl 5⟩ (.decl 5)

/-- `case X is when 1 => X := 0; end case;` — a case statement with a single
(non-`others`) alternative, legal Ada when the label covers `X`'s subtype. -/
def c1_caseSingleAlt : AStmt :=
  .caseS (.identRef (.objectDecl 1) "X" (.decl 5))
    [([.intLit 1 .universalInt], [.assignS 1 "X" (.decl 5) (.intLit 0 .universalInt)])]

/-- The branch list the lowering builds for `c1_caseSingleAlt`. -/
def c1_branches : List (List Stmt) :=
  [[.assume (.bin c1_selX .eq (.lit (.int 1) .int) .bool) none,
    .assign c1_selX (.lit (.int 0) .universalInt)]]

/-- Registry for the short-circuit scenario: two declared boolean operands. -/
def c2_vd : VarDecls := [((1, "C1"), ⟨"C1", none, .bool⟩), ((2, "C2"), ⟨"C2", none, .bool⟩)]

/-- The left operand `C1` as a lal expression. -/
def c2_lhs : AExpr := .identRef (.objectDecl 1) "C1" .bool

/-- The right operand `C2` as a lal expression. -/
def c2_rhs : AExpr := .identRef (.objectDecl 2) "C2" .bool

/-- The synthetic boolean temporary allocated first by
`transform_short_circuit_ops` (fresh name `tmp0`). -/
def c2_tmp : Expr := .ident ⟨"tmp0", some .syntheticVariable, .bool⟩ .bool

/-- The IR reference to operand `C1`. -/
def c2_l : Expr := .ident ⟨"C1", none, .bool⟩ .bool

/-- The IR reference to operand `C2`. -/
def c2_r : Expr := .ident ⟨"C2", none, .bool⟩ .bool

/-- `tmp0 := True`. -/
def c2_tT : Stmt := .assign c2_tmp (.lit (.str ADA_TRUE) .bool)

/-- `tmp0 := False`. -/
def c2_tF : Stmt := .assign c2_tmp (.lit (.str ADA_FALSE) .bool)

/-- The desugared and-then tree:
branch(assume C1) → branch(assume C2 → tmp=True) | branch(assume ¬C2 →
tmp=False); branch(assume ¬C1) → tmp=False. -/
def c2_andThenPre : List Stmt :=
  [.split [Stmt.assume c2_l none ::
             [.split [Stmt.assume c2_r none :: [c2_tT],
                      Stmt.assume (.un .notB c2_r .bool) none :: [c2_tF]]],
           Stmt.assume (.un .notB c2_l .bool) none :: [c2_tF]]]

/-- The desugared or-else tree:
branch(assume C1) → tmp=True; branch(assume ¬C1) → branch(assume C2 →
tmp=True) | branch(assume ¬C2 → tmp=False). -/
def c2_orElsePre : List Stmt :=
  [.split [Stmt.assume c2_l none :: [c2_tT],
           Stmt.assume (.un .notB c2_l .bool) none ::
             [.split [Stmt.assume c2_r none :: [c2_tT],
                      Stmt.assume (.un .notB c2_r .bool) none :: [c2_tF]]]]]

/-- The environment assigning the two boolean operands. -/
def c2_env (b1 b2 : Bool) : Env := fun n =>
  if n = "C1" then fromBool b1 else if n = "C2" then fromBool b2 else .str "undef"

/-- Registry for the case scenarios: one declared variable `X`. -/
def c3_vd : VarDecls := [((1, "X"), ⟨"X", none, .decl 5⟩)]

/-- The selector `X` as a lal expression. -/
def c3_selAst : AExpr := .identRef (.objectDecl 1) "X" (.decl 5)

/-- The IR reference to the selector. -/
def c3_selIr : Expr := .ident ⟨"X", none, .decl 5⟩ (.decl 5)

/-- `X := n;` as a lal statement (alternative bodies). -/
def c3_assignAst (n : Int) : AStmt := .assignS 1 "X" (.decl 5) (.intLit n .universalInt)

/-- The lowering of `X := n;`. -/
def c3_assignIr (n : Int) : Stmt := .assign c3_selIr (.lit (.int n) .universalInt)

/-- The singleton guard `X = n` built by `gen_case_condition`. -/
def c3_eqG (n : Int) : Expr := .bin c3_selIr .eq (.lit (.int n) .int) .bool

/-- The spec's scenario `case X is when 1 => A; when 2|3 => B;
when others => C; end case;`. -/
def c3_case : AStmt := .caseS c3_selAst
  [([.intLit 1 .universalInt], [c3_assignAst 10]),
   ([.intLit 2 .universalInt, .intLit 3 .universalInt], [c3_assignAst 20]),
   ([.othersDesignator], [c3_assignAst 30])]

/-- Scenario `case X is when 10 .. 20 => A; when others => C; end case;`. -/
def c3_caseRange : AStmt := .caseS c3_selAst
  [([.binOp .doubleDot (.intLit 10 .universalInt) (.intLit 20 .universalInt) .universalInt],
    [c3_assignAst 10]),
   ([.othersDesignator], [c3_assignAst 30])]

/-- Scenario `case X is when 1 | 2 | 3 => A; end case;` (three labels in one
alternative, pinning the fold direction of the disjunction). -/
def c3_caseTriple : AStmt := .caseS c3_selAst
  [([.intLit 1 .universalInt, .intLit 2 .universalInt, .intLit 3 .universalInt],
    [c3_assignAst 10])]

/-- Registry for the pre-statement scenario: `X` of an access type. -/
def c3_vdP : VarDecls := [((1, "X"), ⟨"X", none, .decl 7⟩)]

/-- The IR reference to the pointer `X`. -/
def c3_ptrIr : Expr := .ident ⟨"X", none, .decl 7⟩ (.decl 7)

/-- The dereference `X.all` of the pointer selector. -/
def c3_derefIr : Expr := .un .deref c3_ptrIr (.decl 6)

/-- Scenario `case X.all is when 1 => null-ish; end case;`: the selector's
lowering carries a pre-statement (the null-check assumption). -/
def c3_caseDeref : AStmt := .caseS (.derefE (.identRef (.objectDecl 1) "X" (.decl 7)) (.decl 6))
  [([.intLit 1 .universalInt], [])]

/-- The guard `X ≥ 10 ∧ X ≤ 20` built for the range label. -/
def c3_rangeG : Expr :=
  .bin (.bin c3_selIr .ge (.lit (.int 10) .int) .bool)
       .andB
       (.bin c3_selIr .le (.lit (.int 20) .int) .bool) .bool

/-- A subprogram whose lowering fails fatally (an unsupported statement). -/
def c5_bad : ASubp := ⟨[], [.unsupportedS "delay statement"]⟩

/-- A subprogram that lowers fine on its own: `X : T;`. -/
def c5_good : ASubp := ⟨[.objectDecl 1 ["X"] (.decl 5) none], []⟩

/-- The lowering of `c5_good`. -/
def c5_goodProg : Program := ⟨[.read (.ident ⟨"X", none, .decl 5⟩ (.decl 5))]⟩

/-- A lowered assignment: `X := 5` with a universal-int literal. -/
def c6_prog : Program :=
  ⟨[.assign (.ident ⟨"X", none, .decl 5⟩ (.decl 5)) (.lit (.int 5) .universalInt)]⟩

/-- A binary expression with one ambiguous operand: `x + 1` where `x` has the
standard integer type and the literal the universal integer type. -/
def c6_mixed : Expr :=
  .bin (.ident ⟨"x", none, .int⟩ .int) .plus (.lit (.int 1) .universalInt) .int

/-- A subprogram whose body is `Y : T; Y := 3;`. -/
def c7_subp : ASubp :=
  ⟨[.objectDecl 1 ["Y"] (.decl 5) none],
   [.assignS 1 "Y" (.decl 5) (.intLit 3 .universalInt)]⟩

/-- The lowering of `c7_subp`: one `Read` and one `Assign` whose right-hand
side carries the universal integer type. -/
def c7_prog : Program :=
  ⟨[.read (.ident ⟨"Y", none, .decl 5⟩ (.decl 5)),
    .assign (.ident ⟨"Y", none, .decl 5⟩ (.decl 5)) (.lit (.int 3) .universalInt)]⟩

/-- The label/goto bookkeeping invariant of a lowering step: `srcL`/`srcG` are
the source label declarations and goto targets the step consumes, `stack` the
loop stack it ran under, `kc`–`kc'` its counter interval. Every source label
appears in the output as often as in the source, every exit label allocated in
the counter interval appears exactly once (and none from outside it), and
every goto targets an emitted source label, a stack exit label, or an exit
label allocated within the interval. -/
def StmtsInv (srcL srcG : List Nat) (stack : List (Nat × LabelId))
    (kc kc' : KC) (out : List Stmt) : Prop :=
  kc.el ≤ kc'.el ∧ kc.ew ≤ kc'.ew ∧
  (∀ i, (labelsIn out).count (.src i) = srcL.count i) ∧
  (∀ n, (labelsIn out).count (.exitLoop n) = if kc.el ≤ n ∧ n < kc'.el then 1 else 0) ∧
  (∀ n, (labelsIn out).count (.exitWhile n) = if kc.ew ≤ n ∧ n < kc'.ew then 1 else 0) ∧
  (∀ g ∈ gotosIn out,
     (∃ i, g = .src i ∧ i ∈ srcG) ∨ g ∈ stackExits stack ∨
     (∃ n, g = .exitLoop n ∧ kc.el ≤ n ∧ n < kc'.el) ∨
     (∃ n, g = .exitWhile n ∧ kc.ew ≤ n ∧ n < kc'.ew))

/-- The emitted labels of the non-`others` alternatives (the ones
`transformCaseAlts` processes). -/
def srcLabelsAltsNO : List (List AExpr × List AStmt) → List Nat
  | [] => []
  | a :: rest =>
    (if a.1.any isOthersChoice then [] else srcLabels a.2) ++ srcLabelsAltsNO rest

/-- The emitted labels of the `others` alternatives. -/
def srcLabelsAltsO : List (List AExpr × List AStmt) → List Nat
  | [] => []
  | a :: rest =>
    (if a.1.any isOthersChoice then srcLabels a.2 else []) ++ srcLabelsAltsO rest

/-- The emitted goto targets of the non-`others` alternatives. -/
def srcGotosAltsNO : List (List AExpr × List AStmt) → List Nat
  | [] => []
  | a :: rest =>
    (if a.1.any isOthersChoice then [] else srcGotos a.2) ++ srcGotosAltsNO rest

/-- The emitted goto targets of the `others` alternatives. -/
def srcGotosAltsO : List (List AExpr × List AStmt) → List Nat
  | [] => []
  | a :: rest =>
    (if a.1.any isOthersChoice then srcGotos a.2 else []) ++ srcGotosAltsO rest

/-- A subprogram with one declared label, a goto to it, and a loop exited by
an unnamed exit statement. -/
def c9_subp : ASubp := ⟨[], [.labelS 3, .gotoS 3, .loopSt 9 [.exitS none none]]⟩

/-- Its lowering: the label singleton, the goto referencing it, the loop whose
exit statement gotos the synthesized exit label, and that exit label emitted
once immediately after the loop. -/
def c9_prog : Program :=
  ⟨[.label (.src 3), .goto (.src 3), .loopS [.goto (.exitLoop 0)], .label (.exitLoop 0)]⟩

/-! ## Theorems -/

/-- The inlined short-circuit case of `transformExpr` agrees with the
standalone `transformShortCircuitOps` (and-then). -/
theorem transformExpr_andThen (vd : VarDecls) (l r : AExpr) (ty : TypeHint) (kc : KC) :
    transformExpr vd (.binOp .andThen l r ty) kc
      = transformShortCircuitOps vd true l r ty kc := by
  simp [transformExpr, transformShortCircuitOps]

/-- The inlined short-circuit case of `transformExpr` agrees with the
standalone `transformShortCircuitOps` (or-else). -/
theorem transformExpr_orElse (vd : VarDecls) (l r : AExpr) (ty : TypeHint) (kc : KC) :
    transformExpr vd (.binOp .orElse l r ty) kc
      = transformShortCircuitOps vd false l r ty kc := by
  simp [transformExpr, transformShortCircuitOps]

/-- C1: the claim fails on the provided sources. (a) `tree.py`'s
`SplitStmt.__init__` takes exactly the two positional branch lists
`fst_stmts`/`snd_stmts`, so the single ordered branch list that every `lal.py`
call site passes raises `TypeError` instead of constructing an N-ary node;
(b) even under the N-ary reading, lowering a case statement with a single
non-default alternative emits a `Split` whose branch list has length 1,
violating the claimed branch-count ≥ 2 invariant. -/
theorem C1_split_node_binary_vs_nary :
    (∀ (branches : List (List Stmt)),
       splitStmtInit [branches]
         = .error "TypeError: SplitStmt.init takes exactly 2 positional arguments") ∧
    transformStmt c1_vd [] c1_caseSingleAlt [] KC.init
      = .ok ([.split c1_branches], KC.init) ∧
    c1_branches.length = 1 :=
  ⟨fun _ => rfl, rfl, rfl⟩

/-- C2: for both and-then and or-else the lowering returns the two-level
nested split/assume tree as the pre-statement block and a reference to the
synthetic boolean temporary as the result expression, and for every assignment
of {True, False} to the two operands, enumerating the feasible paths of that
tree and recording the temporary's assigned value yields exactly the
short-circuit truth table (one feasible path, carrying `b1 && b2`
resp. `b1 || b2`). -/
theorem C2_short_circuit_roundtrip :
    transformShortCircuitOps c2_vd true c2_lhs c2_rhs .bool KC.init
      = .ok (c2_andThenPre, c2_tmp, ⟨1, 0, 0⟩) ∧
    transformShortCircuitOps c2_vd false c2_lhs c2_rhs .bool KC.init
      = .ok (c2_orElsePre, c2_tmp, ⟨1, 0, 0⟩) ∧
    (∀ b1 b2 : Bool,
       (runStmts (c2_env b1 b2) c2_andThenPre).map (fun e => e "tmp0")
         = [fromBool (b1 && b2)]) ∧
    (∀ b1 b2 : Bool,
       (runStmts (c2_env b1 b2) c2_orElsePre).map (fun e => e "tmp0")
         = [fromBool (b1 || b2)]) := by
  refine ⟨rfl, rfl, ?_, ?_⟩ <;>
    (intro b1 b2; cases b1 <;> cases b2 <;>
      simp [runStmts, runStmt, runSeq, runBranches, denote, binRuleOf, unRuleOf,
            toBoolV, fromBool, updEnv, c2_env, c2_andThenPre, c2_orElsePre,
            c2_l, c2_r, c2_tT, c2_tF, c2_tmp, ADA_TRUE, ADA_FALSE])

/-- C3: case dispatch synthesis behaves as claimed on the spec's scenario and
on its range/multi-label/pre-statement variants: one N-branch split with one
branch per alternative (default included), each branch `Assume(guard)` before
the alternative's statements; a singleton label yields an equality guard, a
range label the conjunction `selector ≥ lo ∧ selector ≤ hi`, multiple labels
of one alternative the left-fold disjunction, and the `others` guard is the
negation of the disjunction of every other alternative's guard; the
selector's pre-statements precede the split. -/
theorem C3_case_dispatch_guards :
    transformStmt c3_vd [] c3_case [] KC.init
      = .ok ([.split
          [[.assume (c3_eqG 1) none, c3_assignIr 10],
           [.assume (orBuilder (c3_eqG 2) (c3_eqG 3)) none, c3_assignIr 20],
           [.assume (.un .notB (orBuilder (c3_eqG 1) (orBuilder (c3_eqG 2) (c3_eqG 3))) .bool)
              none, c3_assignIr 30]]], KC.init) ∧
    transformStmt c3_vd [] c3_caseRange [] KC.init
      = .ok ([.split
          [[.assume c3_rangeG none, c3_assignIr 10],
           [.assume (.un .notB c3_rangeG .bool) none, c3_assignIr 30]]], KC.init) ∧
    transformStmt c3_vd [] c3_caseTriple [] KC.init
      = .ok ([.split
          [[.assume (orBuilder (orBuilder (c3_eqG 1) (c3_eqG 2)) (c3_eqG 3)) none,
            c3_assignIr 10]]], KC.init) ∧
    transformStmt c3_vdP [] c3_caseDeref [] KC.init
      = .ok ([.assume (.bin c3_ptrIr .neq (.lit (.str "null") (.decl 7)) .bool)
                (some .derefCheck),
              .split [[.assume (.bin c3_derefIr .eq (.lit (.int 1) .int) .bool) none]]],
             KC.init) :=
  ⟨rfl, rfl, rfl, rfl⟩

/-- C4: the claim fails on the provided source. The `ForLoopStmt` branch of
`transform_stmt` is marked `# todo` and silently returns the empty statement
list, i.e. a counted loop erases to nothing instead of raising the
`unimplemented` fault, whereas a statement kind with no defined rule does
raise the unsupported-construct fault naming the node. -/
theorem C4_for_loop_silently_dropped :
    (∀ (vd : VarDecls) (L : List Nat) (body : List AStmt)
       (stack : List (Nat × LabelId)) (kc : KC),
       transformStmt vd L (.forS body) stack kc = .ok ([], kc)) ∧
    (∀ (vd : VarDecls) (L : List Nat) (tag : String)
       (stack : List (Nat × LabelId)) (kc : KC),
       transformStmt vd L (.unsupportedS tag) stack kc
         = .error (.unsupported ("Cannot transform " ++ tag))) :=
  ⟨fun _ _ _ _ _ => rfl, fun _ _ _ _ _ => rfl⟩

/-- If one element of a comprehension fails, the whole comprehension fails. -/
theorem mapComp_error_of_mem {f : α → Except ε β} :
    ∀ (l : List α) (x : α) (e : ε), x ∈ l → f x = .error e →
      ∃ e2, mapComp f l = .error e2 := by
  intro l
  induction l with
  | nil => intro x e hx _; cases hx
  | cons a as ih =>
    intro x e hx hfx
    rcases List.mem_cons.mp hx with h | h
    · subst h
      exact ⟨e, by simp [mapComp, hfx]⟩
    · cases ha : f a with
      | error e1 => exact ⟨e1, by simp [mapComp, ha]⟩
      | ok b =>
        obtain ⟨e2, h2⟩ := ih x e h hfx
        exact ⟨e2, by simp [mapComp, ha, h2]⟩

/-- If a comprehension succeeds, every element of the input succeeded. -/
theorem mapComp_ok_of_mem {f : α → Except ε β} :
    ∀ (l : List α) (ys : List β) (x : α), mapComp f l = .ok ys → x ∈ l →
      ∃ y, f x = .ok y := by
  intro l
  induction l with
  | nil => intro ys x _ hx; cases hx
  | cons a as ih =>
    intro ys x hok hx
    cases ha : f a with
    | error e1 => rw [mapComp, ha] at hok; cases hok
    | ok b =>
      rcases List.mem_cons.mp hx with h | h
      · exact h ▸ ⟨b, ha⟩
      · rw [mapComp, ha] at hok
        cases hrest : mapComp f as with
        | error e2 => rw [hrest] at hok; cases hok
        | ok bs => exact ih bs x hrest h

/-- C5 counterexample: the claim as stated is false. In a unit holding a
failing subprogram and a healthy one, `extract_programs` — a bare list
comprehension with no per-subprogram exception handling — propagates the
fault and aborts the whole extraction: nothing at all is returned, although
the second subprogram lowers (and normalizes) fine in isolation. Extraction
of the other subprograms does not continue. -/
theorem C5_unit_extraction_aborts_counterexample :
    extractPrograms [c5_bad, c5_good]
      = .error (.unsupported "Cannot transform delay statement") ∧
    genIr c5_good = .ok c5_goodProg ∧
    normalizeProgram c5_goodProg = .ok c5_goodProg ∧
    extractPrograms [c5_good] = .ok [c5_goodProg] :=
  ⟨rfl, rfl, rfl, rfl⟩

/-- C5 amended: when lowering of one subprogram fails fatally, the failure
propagates out of `extract_programs` and the extraction of the whole unit is
aborted — no program list is returned at all, so in particular no partial or
degraded IR is ever returned for the failed subprogram; conversely a
successful extraction implies every subprogram of the unit lowered
completely. -/
theorem C5_failure_aborts_whole_unit :
    (∀ (subps : List ASubp) (s : ASubp) (e : Err),
       s ∈ subps → genIr s = .error e →
       ∃ e2, extractPrograms subps = .error e2) ∧
    (∀ (subps : List ASubp) (progs : List Program),
       extractPrograms subps = .ok progs →
       ∀ s ∈ subps, ∃ p, genIr s = .ok p) := by
  constructor
  · intro subps s e hs hgen
    obtain ⟨e2, h2⟩ := mapComp_error_of_mem subps s e hs hgen
    exact ⟨e2, by simp [extractPrograms, h2]⟩
  · intro subps progs hok s hs
    rw [extractPrograms] at hok
    cases hm : mapComp genIr subps with
    | error e => rw [hm] at hok; cases hok
    | ok ps => exact mapComp_ok_of_mem subps ps s hm hs

/-- C5 witness for the amended claim: instantiated on a unit containing only
the failing subprogram, and on the healthy singleton unit. -/
theorem C5_failure_aborts_whole_unit_witness :
    (∃ e2, extractPrograms [c5_bad] = .error e2) ∧
    (∃ p, genIr c5_good = .ok p) :=
  ⟨C5_failure_aborts_whole_unit.1 [c5_bad] c5_bad
     (.unsupported "Cannot transform delay statement") (by simp) rfl,
   C5_failure_aborts_whole_unit.2 [c5_good] [c5_goodProg] rfl c5_good (by simp)⟩

/-- C6: the claim fails on the provided sources for assignments.
`ConvertUniversalTypes.visit_assign` reads `assign.id.data.type_hint`, but
`tree.py`'s `AssignStmt` stores the target under `var`, so the normalizer
raises `AttributeError` on every assignment instead of threading the target's
type (first conjunct). For the contexts that do work, the described threading
holds: on a binary expression the expected type is the non-ambiguous
operand's, a successfully evaluated ambiguous operand is replaced in place by
a concretely-typed literal carrying the value, and a failed evaluation
(the identifier) recurses into children and leaves the node intact
(second conjunct). -/
theorem C6_normalizer_assignment_crash :
    normalizeProgram c6_prog
      = .error (.pyErr "AttributeError: AssignStmt has no attribute id") ∧
    visitConvExpr c6_mixed
      = .ok (.bin (.ident ⟨"x", none, .int⟩ .int) .plus (.lit (.int 1) .int) .int) :=
  ⟨rfl, by simp [c6_mixed, visitConvExpr, tryConvertExpr, eval, hasUniversalType, Expr.hint, binRuleOf, pyAdd]⟩

/-- C7: the claim fails on the provided sources. A lowered program containing
an assignment (here the lowering of `Y : T; Y := 3;`) makes the first
normalizer pass raise `AttributeError` (`visit_assign` reads the nonexistent
`assign.id`), so one pass produces no tree at all: neither the elimination of
universal type tags nor the second-pass no-op can be observed on it. -/
theorem C7_normalizer_pass_crashes_on_lowered_program :
    genIr c7_subp = .ok c7_prog ∧
    normalizeProgram c7_prog
      = .error (.pyErr "AttributeError: AssignStmt has no attribute id") :=
  ⟨rfl, rfl⟩

/-- C8: the constant expression evaluator returns a literal node's own value
for any literal; it fails with the recoverable not-a-constant signal on any
bare identifier, and on a unary operator absent from its fixed rule table
(the table has no rule for `Address` and `Deref`, while every binary symbol of
the registry has a rule, so no binary lookup can miss); and a failure of any
operand propagates to the enclosing expression's evaluation. -/
theorem C8_const_evaluator_contract :
    (∀ (v : Val) (h : TypeHint), eval (.lit v h) = .ok v) ∧
    (∀ (vr : Variable) (h : TypeHint), eval (.ident vr h) = .error .notConst) ∧
    (∀ (op : UnOp) (e : Expr) (h : TypeHint),
       unRuleOf op = none → eval (.un op e h) = .error .notConst) ∧
    (unRuleOf .address = none ∧ unRuleOf .deref = none ∧
     ∀ (op : BinOp), (binRuleOf op).isSome = true) ∧
    (∀ (l : Expr) (op : BinOp) (r : Expr) (h : TypeHint) (er : EvalErr),
       eval l = .error er → eval (.bin l op r h) = .error er) ∧
    (∀ (l : Expr) (op : BinOp) (r : Expr) (h : TypeHint) (x : Val) (er : EvalErr),
       eval l = .ok x → eval r = .error er → eval (.bin l op r h) = .error er) ∧
    (∀ (op : UnOp) (e : Expr) (h : TypeHint) (f : Val → Except EvalErr Val) (er : EvalErr),
       unRuleOf op = some f → eval e = .error er → eval (.un op e h) = .error er) := by
  refine ⟨fun v h => rfl, fun vr h => rfl, ?_, ⟨rfl, rfl, ?_⟩, ?_, ?_, ?_⟩
  · intro op e h hop; simp [eval, hop]
  · intro op; cases op <;> rfl
  · intro l op r h er hl
    obtain ⟨f, hf⟩ : ∃ f, binRuleOf op = some f := by cases op <;> exact ⟨_, rfl⟩
    simp [eval, hf, hl]
  · intro l op r h x er hl hr
    obtain ⟨f, hf⟩ : ∃ f, binRuleOf op = some f := by cases op <;> exact ⟨_, rfl⟩
    simp [eval, hf, hl, hr]
  · intro op e h f er hop he; simp [eval, hop, he]

/-- C8 witness: the general statements instantiated at concrete inputs —
`eval (lit 5) = 5`, a bare identifier fails, the `Address` operator has no
rule and fails, and a failing left operand makes `2 + x` fail. -/
theorem C8_const_evaluator_contract_witness :
    eval (.lit (.int 5) .int) = .ok (.int 5) ∧
    eval (.ident ⟨"x", none, .int⟩ .int) = .error .notConst ∧
    eval (.un .address (.lit (.int 0) .int) .int) = .error .notConst ∧
    eval (.bin (.ident ⟨"x", none, .int⟩ .int) .plus (.lit (.int 2) .int) .int)
      = .error .notConst ∧
    eval (.bin (.lit (.int 2) .int) .plus (.ident ⟨"x", none, .int⟩ .int) .int)
      = .error .notConst ∧
    eval (.un .neg (.ident ⟨"x", none, .int⟩ .int) .int) = .error .notConst :=
  ⟨C8_const_evaluator_contract.1 (.int 5) .int,
   C8_const_evaluator_contract.2.1 ⟨"x", none, .int⟩ .int,
   C8_const_evaluator_contract.2.2.1 .address (.lit (.int 0) .int) .int rfl,
   C8_const_evaluator_contract.2.2.2.2.1 _ .plus _ .int .notConst rfl,
   C8_const_evaluator_contract.2.2.2.2.2.1 _ .plus _ .int (.int 2) .notConst rfl rfl,
   C8_const_evaluator_contract.2.2.2.2.2.2 .neg _ .int _ .notConst rfl rfl⟩

/-- C10: lowering a case statement whose only alternative is `others` never
returns: the `others` guard is the negation of `reduce`d disjunction over the
empty list of other alternatives' conditions, and Python's `reduce` raises
`TypeError` on an empty sequence, aborting the lowering. -/
theorem C10_only_others_case_fails :
    ∀ (vd : VarDecls) (L : List Nat) (sel : AExpr) (stmts : List AStmt)
      (stack : List (Nat × LabelId)) (kc : KC),
      exceptIsOk (transformStmt vd L (.caseS sel [([.othersDesignator], stmts)]) stack kc)
        = false := by
  intro vd L sel stmts stack kc
  simp only [transformStmt]
  cases h1 : transformExpr vd sel kc with
  | error er => rfl
  | ok v =>
    obtain ⟨cpre, selE, kc1⟩ := v
    dsimp only
    rw [show transformCaseAlts vd L [([AExpr.othersDesignator], stmts)] stack kc1
          = .ok ([], kc1) from by simp [transformCaseAlts, isOthersChoice]]
    dsimp only
    cases h3 : transformOthersAlts vd L [([AExpr.othersDesignator], stmts)] stack kc1 with
    | error er => rfl
    | ok w =>
      obtain ⟨oss, kc3⟩ := w
      rfl

theorem labelsIn_append : ∀ (a b : List Stmt), labelsIn (a ++ b) = labelsIn a ++ labelsIn b := by
  intro a b
  induction a with
  | nil => simp [labelsIn]
  | cons s rest ih => simp [labelsIn, ih]

theorem gotosIn_append : ∀ (a b : List Stmt), gotosIn (a ++ b) = gotosIn a ++ gotosIn b := by
  intro a b
  induction a with
  | nil => simp [gotosIn]
  | cons s rest ih => simp [gotosIn, ih]

theorem labelsIn_genSplitCore (ce : Expr) (cpre ts es : List Stmt) :
    labelsIn (genSplitCore ce cpre ts es) = labelsIn cpre ++ labelsIn ts ++ labelsIn es := by
  simp [genSplitCore, labelsIn_append, labelsIn, labelsInStmt, labelsInBranches]

theorem gotosIn_genSplitCore (ce : Expr) (cpre ts es : List Stmt) :
    gotosIn (genSplitCore ce cpre ts es) = gotosIn cpre ++ gotosIn ts ++ gotosIn es := by
  simp [genSplitCore, gotosIn_append, gotosIn, gotosInStmt, gotosInBranches]

theorem transformExpr_nlg :
    ∀ (N : Nat) (e : AExpr) (vd : VarDecls) (kc : KC) (pre : List Stmt) (e2 : Expr) (kc' : KC),
      sizeOf e ≤ N → transformExpr vd e kc = .ok (pre, e2, kc') →
      labelsIn pre = [] ∧ gotosIn pre = [] ∧ kc'.el = kc.el ∧ kc'.ew = kc.ew := by
  intro N
  induction N with
  | zero =>
    intro e vd kc pre e2 kc' hsz
    exfalso
    cases e <;> simp_arith at hsz
  | succ N ih =>
    intro e vd kc pre e2 kc' hsz hok
    cases e with
    | paren e1 =>
      simp only [transformExpr] at hok
      exact ih e1 vd kc pre e2 kc' (by simp_arith at hsz ⊢; omega) hok
    | binOp op l r ty =>
      have hszl : sizeOf l ≤ N := by simp_arith at hsz ⊢; omega
      have hszr : sizeOf r ≤ N := by simp_arith at hsz ⊢; omega
      by_cases hA : op = ABinOp.andThen
      · subst hA
        simp only [transformExpr, reduceIte] at hok
        cases hr : transformExpr vd r ⟨kc.tmp + 1, kc.el, kc.ew⟩ with
        | error er => simp only [hr] at hok; exact Except.noConfusion hok
        | ok v =>
          obtain ⟨rpre, re, kc2⟩ := v
          simp only [hr] at hok
          cases hl : transformExpr vd l kc2 with
          | error er => simp only [hl] at hok; exact Except.noConfusion hok
          | ok w =>
            obtain ⟨lpre, le, kc3⟩ := w
            simp only [hl, Except.ok.injEq, Prod.mk.injEq] at hok
            obtain ⟨hpre, he2, hkc⟩ := hok
            obtain ⟨hr1, hr2, hr3, hr4⟩ := ih r vd _ _ _ _ hszr hr
            obtain ⟨hl1, hl2, hl3, hl4⟩ := ih l vd _ _ _ _ hszl hl
            have hr3' : kc2.el = kc.el := hr3
            have hr4' : kc2.ew = kc.ew := hr4
            subst hpre hkc
            refine ⟨?_, ?_, by omega, by omega⟩
            · simp [labelsIn_genSplitCore, hr1, hl1, labelsIn, labelsInStmt]
            · simp [gotosIn_genSplitCore, hr2, hl2, gotosIn, gotosInStmt]
      · by_cases hO : op = ABinOp.orElse
        · subst hO
          simp only [transformExpr] at hok
          rw [if_neg (by decide)] at hok
          simp only [if_true] at hok
          cases hr : transformExpr vd r ⟨kc.tmp + 1, kc.el, kc.ew⟩ with
          | error er => simp only [hr] at hok; exact Except.noConfusion hok
          | ok v =>
            obtain ⟨rpre, re, kc2⟩ := v
            simp only [hr] at hok
            cases hl : transformExpr vd l kc2 with
            | error er => simp only [hl] at hok; exact Except.noConfusion hok
            | ok w =>
              obtain ⟨lpre, le, kc3⟩ := w
              simp only [hl, Except.ok.injEq, Prod.mk.injEq] at hok
              obtain ⟨hpre, he2, hkc⟩ := hok
              obtain ⟨hr1, hr2, hr3, hr4⟩ := ih r vd _ _ _ _ hszr hr
              obtain ⟨hl1, hl2, hl3, hl4⟩ := ih l vd _ _ _ _ hszl hl
              have hr3' : kc2.el = kc.el := hr3
              have hr4' : kc2.ew = kc.ew := hr4
              subst hpre hkc
              refine ⟨?_, ?_, by omega, by omega⟩
              · simp [labelsIn_genSplitCore, hr1, hl1, labelsIn, labelsInStmt]
              · simp [gotosIn_genSplitCore, hr2, hl2, gotosIn, gotosInStmt]
        · simp only [transformExpr, if_neg hA, if_neg hO] at hok
          cases hl : transformExpr vd l kc with
          | error er => simp only [hl] at hok; exact Except.noConfusion hok
          | ok w =>
            obtain ⟨lpre, le, kc1⟩ := w
            simp only [hl] at hok
            cases hr : transformExpr vd r kc1 with
            | error er => simp only [hr] at hok; exact Except.noConfusion hok
            | ok v =>
              obtain ⟨rpre, re, kc2⟩ := v
              simp only [hr] at hok
              cases hsym : lalBinOp2Symbol op with
              | none => simp only [hsym] at hok; exact Except.noConfusion hok
              | some o =>
                simp only [hsym, Except.ok.injEq, Prod.mk.injEq] at hok
                obtain ⟨hpre, he2, hkc⟩ := hok
                obtain ⟨hl1, hl2, hl3, hl4⟩ := ih l vd _ _ _ _ hszl hl
                obtain ⟨hr1, hr2, hr3, hr4⟩ := ih r vd _ _ _ _ hszr hr
                subst hpre hkc
                exact ⟨by simp [labelsIn_append, hl1, hr1],
                       by simp [gotosIn_append, hl2, hr2], by omega, by omega⟩
    | unOp op e1 ty =>
      simp only [transformExpr] at hok
      cases he : transformExpr vd e1 kc with
      | error er => simp only [he] at hok; exact Except.noConfusion hok
      | ok w =>
        obtain ⟨pre1, ie, kc1⟩ := w
        simp only [he] at hok
        cases hsym : lalUnOp2Symbol op with
        | none => simp only [hsym] at hok; exact Except.noConfusion hok
        | some o =>
          simp only [hsym, Except.ok.injEq, Prod.mk.injEq] at hok
          obtain ⟨hpre, he2, hkc⟩ := hok
          obtain ⟨h1, h2, h3, h4⟩ := ih e1 vd _ _ _ _ (by simp_arith at hsz ⊢; omega) he
          subst hpre hkc
          exact ⟨h1, h2, h3, h4⟩
    | ifExpr c t e1 ty =>
      have hszc : sizeOf c ≤ N := by simp_arith at hsz ⊢; omega
      have hszt : sizeOf t ≤ N := by simp_arith at hsz ⊢; omega
      have hsze : sizeOf e1 ≤ N := by simp_arith at hsz ⊢; omega
      simp only [transformExpr] at hok
      cases ht : transformExpr vd t ⟨kc.tmp + 1, kc.el, kc.ew⟩ with
      | error er => simp only [ht] at hok; exact Except.noConfusion hok
      | ok w =>
        obtain ⟨tpre, te, kc2⟩ := w
        simp only [ht] at hok
        cases he : transformExpr vd e1 kc2 with
        | error er => simp only [he] at hok; exact Except.noConfusion hok
        | ok v =>
          obtain ⟨epre, ee, kc3⟩ := v
          simp only [he] at hok
          cases hc : transformExpr vd c kc3 with
          | error er => simp only [hc] at hok; exact Except.noConfusion hok
          | ok u =>
            obtain ⟨cpre, ce, kc4⟩ := u
            simp only [hc, Except.ok.injEq, Prod.mk.injEq] at hok
            obtain ⟨hpre, he2, hkc⟩ := hok
            obtain ⟨ht1, ht2, ht3, ht4⟩ := ih t vd _ _ _ _ hszt ht
            obtain ⟨he1', he2', he3', he4'⟩ := ih e1 vd _ _ _ _ hsze he
            obtain ⟨hc1, hc2, hc3, hc4⟩ := ih c vd _ _ _ _ hszc hc
            have ht3' : kc2.el = kc.el := ht3
            have ht4' : kc2.ew = kc.ew := ht4
            subst hpre hkc
            refine ⟨?_, ?_, by omega, by omega⟩
            · simp [labelsIn_genSplitCore, labelsIn_append, hc1, ht1, he1', labelsIn, labelsInStmt]
            · simp [gotosIn_genSplitCore, gotosIn_append, hc2, ht2, he2', gotosIn, gotosInStmt]
    | identRef ref text ty =>
      cases ref with
      | objectDecl did =>
        simp only [transformExpr] at hok
        cases hv : vdLookup vd (did, text) with
        | none => simp only [hv] at hok; exact Except.noConfusion hok
        | some v =>
          simp only [hv, Except.ok.injEq, Prod.mk.injEq] at hok
          obtain ⟨hpre, he2, hkc⟩ := hok
          subst hpre hkc
          exact ⟨rfl, rfl, rfl, rfl⟩
      | enumLit tid =>
        simp only [transformExpr, Except.ok.injEq, Prod.mk.injEq] at hok
        obtain ⟨hpre, he2, hkc⟩ := hok
        subst hpre hkc
        exact ⟨rfl, rfl, rfl, rfl⟩
      | numberDecl e1 =>
        simp only [transformExpr] at hok
        exact ih e1 vd kc pre e2 kc' (by simp_arith at hsz ⊢; omega) hok
      | typeDeclSignedInt rng =>
        simp only [transformExpr] at hok
        exact ih rng vd kc pre e2 kc' (by simp_arith at hsz ⊢; omega) hok
      | otherRef => simp only [transformExpr] at hok; exact Except.noConfusion hok
    | intLit n ty =>
      simp only [transformExpr, Except.ok.injEq, Prod.mk.injEq] at hok
      obtain ⟨hpre, he2, hkc⟩ := hok
      subst hpre hkc
      exact ⟨rfl, rfl, rfl, rfl⟩
    | nullLit ty =>
      simp only [transformExpr, Except.ok.injEq, Prod.mk.injEq] at hok
      obtain ⟨hpre, he2, hkc⟩ := hok
      subst hpre hkc
      exact ⟨rfl, rfl, rfl, rfl⟩
    | derefE pfx ty =>
      simp only [transformExpr] at hok
      cases hp : transformExpr vd pfx kc with
      | error er => simp only [hp] at hok; exact Except.noConfusion hok
      | ok w =>
        obtain ⟨ppre, pe, kc1⟩ := w
        simp only [hp, Except.ok.injEq, Prod.mk.injEq] at hok
        obtain ⟨hpre, he2, hkc⟩ := hok
        obtain ⟨h1, h2, h3, h4⟩ := ih pfx vd _ _ _ _ (by simp_arith at hsz ⊢; omega) hp
        subst hpre hkc
        exact ⟨by simp [labelsIn_append, h1, labelsIn, labelsInStmt],
               by simp [gotosIn_append, h2, gotosIn, gotosInStmt], h3, h4⟩
    | attrRef attr pfx ty =>
      simp only [transformExpr] at hok
      cases hp : transformExpr vd pfx kc with
      | error er => simp only [hp] at hok; exact Except.noConfusion hok
      | ok w =>
        obtain ⟨ppre, pe, kc1⟩ := w
        simp only [hp] at hok
        cases ha : attr2unop attr with
        | none => simp only [ha] at hok; exact Except.noConfusion hok
        | some u =>
          simp only [ha, Except.ok.injEq, Prod.mk.injEq] at hok
          obtain ⟨hpre, he2, hkc⟩ := hok
          obtain ⟨h1, h2, h3, h4⟩ := ih pfx vd _ _ _ _ (by simp_arith at hsz ⊢; omega) hp
          subst hpre hkc
          exact ⟨h1, h2, h3, h4⟩
    | othersDesignator => simp only [transformExpr] at hok; exact Except.noConfusion hok
    | unsupportedE tag => simp only [transformExpr] at hok; exact Except.noConfusion hok

theorem StmtsInv_append {L1 G1 L2 G2 : List Nat} {stack : List (Nat × LabelId)}
    {kc kc1 kc2 : KC} {out1 out2 : List Stmt}
    (h1 : StmtsInv L1 G1 stack kc kc1 out1)
    (h2 : StmtsInv L2 G2 stack kc1 kc2 out2) :
    StmtsInv (L1 ++ L2) (G1 ++ G2) stack kc kc2 (out1 ++ out2) := by
  obtain ⟨a1, b1, c1, d1, e1, f1⟩ := h1
  obtain ⟨a2, b2, c2, d2, e2, f2⟩ := h2
  refine ⟨by omega, by omega, ?_, ?_, ?_, ?_⟩
  · intro i
    simp [labelsIn_append, List.count_append, c1 i, c2 i]
  · intro n
    simp only [labelsIn_append, List.count_append, d1 n, d2 n]
    split_ifs <;> omega
  · intro n
    simp only [labelsIn_append, List.count_append, e1 n, e2 n]
    split_ifs <;> omega
  · intro g hg
    rw [gotosIn_append, List.mem_append] at hg
    rcases hg with hg | hg
    · rcases f1 g hg with ⟨i, hi, hmem⟩ | hst | ⟨n, hn, h3, h4⟩ | ⟨n, hn, h3, h4⟩
      · exact Or.inl ⟨i, hi, List.mem_append_left _ hmem⟩
      · exact Or.inr (Or.inl hst)
      · exact Or.inr (Or.inr (Or.inl ⟨n, hn, by omega, by omega⟩))
      · exact Or.inr (Or.inr (Or.inr ⟨n, hn, by omega, by omega⟩))
    · rcases f2 g hg with ⟨i, hi, hmem⟩ | hst | ⟨n, hn, h3, h4⟩ | ⟨n, hn, h3, h4⟩
      · exact Or.inl ⟨i, hi, List.mem_append_right _ hmem⟩
      · exact Or.inr (Or.inl hst)
      · exact Or.inr (Or.inr (Or.inl ⟨n, hn, by omega, by omega⟩))
      · exact Or.inr (Or.inr (Or.inr ⟨n, hn, by omega, by omega⟩))

/-- An output block with no labels and no gotos satisfies the empty invariant
over a counter interval that moved neither exit counter. -/
theorem StmtsInv_of_nlg {stack : List (Nat × LabelId)} {kc kc' : KC} {out : List Stmt}
    (h1 : labelsIn out = []) (h2 : gotosIn out = [])
    (h3 : kc'.el = kc.el) (h4 : kc'.ew = kc.ew) :
    StmtsInv [] [] stack kc kc' out := by
  refine ⟨by omega, by omega, ?_, ?_, ?_, ?_⟩
  · intro i; simp [h1]
  · intro n; rw [h1, h3]; simp only [List.count_nil]; split_ifs with h <;> omega
  · intro n; rw [h1, h4]; simp only [List.count_nil]; split_ifs with h <;> omega
  · intro g hg; rw [h2] at hg; cases hg

/-- The invariant only depends on the output through its label and goto
lists, and is stable under end-counters with equal exit components. -/
theorem StmtsInv_congr {srcL srcG : List Nat} {stack : List (Nat × LabelId)}
    {kc kc' kc'' : KC} {out out2 : List Stmt}
    (hl : labelsIn out2 = labelsIn out) (hg : gotosIn out2 = gotosIn out)
    (hel : kc''.el = kc'.el) (hew : kc''.ew = kc'.ew)
    (h : StmtsInv srcL srcG stack kc kc' out) :
    StmtsInv srcL srcG stack kc kc'' out2 := by
  obtain ⟨a, b, c, d, e, f⟩ := h
  exact ⟨by omega, by omega, fun i => by rw [hl]; exact c i,
         fun n => by rw [hl, hel]; exact d n,
         fun n => by rw [hl, hew]; exact e n,
         fun g hgm => by
           rw [hg] at hgm
           rcases f g hgm with h' | h' | ⟨n, h1', h2', h3'⟩ | ⟨n, h1', h2', h3'⟩
           · exact Or.inl h'
           · exact Or.inr (Or.inl h')
           · exact Or.inr (Or.inr (Or.inl ⟨n, h1', h2', by omega⟩))
           · exact Or.inr (Or.inr (Or.inr ⟨n, h1', h2', by omega⟩))⟩

/-- The invariant is monotone in the source-side data: label lists with equal
counts and a larger goto-target list. -/
theorem StmtsInv_mono {srcL srcL2 srcG srcG2 : List Nat}
    {stack : List (Nat × LabelId)} {kc kc' : KC} {out : List Stmt}
    (h : StmtsInv srcL srcG stack kc kc' out)
    (hL : ∀ i, srcL2.count i = srcL.count i)
    (hG : ∀ i, i ∈ srcG → i ∈ srcG2) :
    StmtsInv srcL2 srcG2 stack kc kc' out := by
  obtain ⟨a, b, c, d, e, f⟩ := h
  refine ⟨a, b, fun i => by rw [c i, hL i], d, e, fun g hgm => ?_⟩
  rcases f g hgm with ⟨i, hi, hmem⟩ | h' | h' | h'
  · exact Or.inl ⟨i, hi, hG i hmem⟩
  · exact Or.inr (Or.inl h')
  · exact Or.inr (Or.inr (Or.inl h'))
  · exact Or.inr (Or.inr (Or.inr h'))

theorem labelsInBranches_append : ∀ (a b : List (List Stmt)),
    labelsInBranches (a ++ b) = labelsInBranches a ++ labelsInBranches b := by
  intro a b
  induction a with
  | nil => simp [labelsInBranches]
  | cons x xs ih => simp [labelsInBranches, ih]

theorem gotosInBranches_append : ∀ (a b : List (List Stmt)),
    gotosInBranches (a ++ b) = gotosInBranches a ++ gotosInBranches b := by
  intro a b
  induction a with
  | nil => simp [gotosInBranches]
  | cons x xs ih => simp [gotosInBranches, ih]

theorem labelsIn_flatten : ∀ (bss : List (List Stmt)),
    labelsIn bss.flatten = labelsInBranches bss := by
  intro bss
  induction bss with
  | nil => simp [labelsIn, labelsInBranches]
  | cons b bs ih => simp [labelsIn_append, labelsInBranches, ih]

theorem gotosIn_flatten : ∀ (bss : List (List Stmt)),
    gotosIn bss.flatten = gotosInBranches bss := by
  intro bss
  induction bss with
  | nil => simp [gotosIn, gotosInBranches]
  | cons b bs ih => simp [gotosIn_append, gotosInBranches, ih]

theorem labelsInBranches_zip_assume :
    ∀ (conds : List Expr) (ca : List (List Val × List Stmt)), conds.length = ca.length →
      labelsInBranches ((conds.zip ca).map (fun p => Stmt.assume p.1 none :: p.2.2))
        = labelsInBranches (ca.map (fun a => a.2)) := by
  intro conds
  induction conds with
  | nil =>
    intro ca h
    cases ca with
    | nil => rfl
    | cons a as => cases h
  | cons c cs ih =>
    intro ca h
    cases ca with
    | nil => cases h
    | cons a as =>
      have h2 := ih as (by simpa using h)
      simp only [List.zip] at h2
      simp only [List.zip, List.zipWith_cons_cons, List.map_cons, labelsInBranches, labelsIn,
                 labelsInStmt, List.nil_append, h2]

theorem gotosInBranches_zip_assume :
    ∀ (conds : List Expr) (ca : List (List Val × List Stmt)), conds.length = ca.length →
      gotosInBranches ((conds.zip ca).map (fun p => Stmt.assume p.1 none :: p.2.2))
        = gotosInBranches (ca.map (fun a => a.2)) := by
  intro conds
  induction conds with
  | nil =>
    intro ca h
    cases ca with
    | nil => rfl
    | cons a as => cases h
  | cons c cs ih =>
    intro ca h
    cases ca with
    | nil => cases h
    | cons a as =>
      have h2 := ih as (by simpa using h)
      simp only [List.zip] at h2
      simp only [List.zip, List.zipWith_cons_cons, List.map_cons, gotosInBranches, gotosIn,
                 gotosInStmt, List.nil_append, h2]

theorem labelsInBranches_map_assume (c : Expr) :
    ∀ (oss : List (List Stmt)),
      labelsInBranches (oss.map (fun s => Stmt.assume c none :: s)) = labelsInBranches oss := by
  intro oss
  induction oss with
  | nil => rfl
  | cons b bs ih => simp only [List.map_cons, labelsInBranches, labelsIn, labelsInStmt,
                               List.nil_append, ih]

theorem gotosInBranches_map_assume (c : Expr) :
    ∀ (oss : List (List Stmt)),
      gotosInBranches (oss.map (fun s => Stmt.assume c none :: s)) = gotosInBranches oss := by
  intro oss
  induction oss with
  | nil => rfl
  | cons b bs ih => simp only [List.map_cons, gotosInBranches, gotosIn, gotosInStmt,
                               List.nil_append, ih]

theorem mapComp_length {f : α → Except ε β} :
    ∀ (l : List α) (ys : List β), mapComp f l = .ok ys → ys.length = l.length := by
  intro l
  induction l with
  | nil => intro ys h; simp only [mapComp, Except.ok.injEq] at h; subst h; rfl
  | cons a as ih =>
    intro ys h
    rw [mapComp] at h
    cases ha : f a with
    | error e => rw [ha] at h; exact Except.noConfusion h
    | ok b =>
      rw [ha] at h
      cases hrest : mapComp f as with
      | error e => rw [hrest] at h; exact Except.noConfusion h
      | ok bs =>
        rw [hrest] at h
        simp only [Except.ok.injEq] at h
        subst h
        simp [ih bs hrest]

theorem stackExits_append (a b : List (Nat × LabelId)) :
    stackExits (a ++ b) = stackExits a ++ stackExits b := by
  simp [stackExits]

/-- `gen_split_stmt` contributes exactly its branches' labels and gotos and
leaves the exit counters untouched. -/
theorem genSplitStmt_nlg {vd : VarDecls} {cond : AExpr} {ts es : List Stmt}
    {kc : KC} {out : List Stmt} {kc' : KC}
    (h : genSplitStmt vd cond ts es kc = .ok (out, kc')) :
    labelsIn out = labelsIn ts ++ labelsIn es ∧
    gotosIn out = gotosIn ts ++ gotosIn es ∧
    kc'.el = kc.el ∧ kc'.ew = kc.ew := by
  rw [genSplitStmt] at h
  cases hc : transformExpr vd cond kc with
  | error er => rw [hc] at h; exact Except.noConfusion h
  | ok w =>
    obtain ⟨cpre, ce, kc1⟩ := w
    simp only [hc, Except.ok.injEq, Prod.mk.injEq] at h
    obtain ⟨hout, hkc⟩ := h
    obtain ⟨h1, h2, h3, h4⟩ := transformExpr_nlg (sizeOf cond) cond vd kc _ _ _ le_rfl hc
    subst hout hkc
    refine ⟨?_, ?_, h3, h4⟩
    · simp [labelsIn_genSplitCore, h1, labelsIn, labelsInStmt]
    · simp [gotosIn_genSplitCore, h2, gotosIn, gotosInStmt]

/-- Choice evaluation only consumes expressions: the exit counters are
untouched. -/
theorem evalChoices_exit_counters {vd : VarDecls} :
    ∀ (cs : List AExpr) (kc : KC) (vs : List Val) (kc' : KC),
      evalChoices vd cs kc = .ok (vs, kc') → kc'.el = kc.el ∧ kc'.ew = kc.ew := by
  intro cs
  induction cs with
  | nil =>
    intro kc vs kc' h
    simp only [evalChoices, Except.ok.injEq, Prod.mk.injEq] at h
    obtain ⟨-, hkc⟩ := h
    subst hkc
    exact ⟨rfl, rfl⟩
  | cons c rest ih =>
    intro kc vs kc' h
    rw [evalChoices] at h
    cases hc : transformExpr vd c kc with
    | error er => rw [hc] at h; exact Except.noConfusion h
    | ok w =>
      obtain ⟨pre1, ce, kc1⟩ := w
      simp only [hc] at h
      cases he : eval ce with
      | error e => rw [he] at h; exact Except.noConfusion h
      | ok v =>
        simp only [he] at h
        cases hrest : evalChoices vd rest kc1 with
        | error er => rw [hrest] at h; exact Except.noConfusion h
        | ok w2 =>
          obtain ⟨vs2, kc2⟩ := w2
          simp only [hrest, Except.ok.injEq, Prod.mk.injEq] at h
          obtain ⟨-, hkc⟩ := h
          subst hkc
          obtain ⟨e1, e2, e3, e4⟩ := transformExpr_nlg (sizeOf c) c vd kc _ _ _ le_rfl hc
          obtain ⟨r1, r2⟩ := ih kc1 vs2 kc2 hrest
          exact ⟨by omega, by omega⟩

theorem labelsIn_map_nolabel {g : α → Stmt} (hg : ∀ x, labelsInStmt (g x) = []) :
    ∀ (l : List α), labelsIn (l.map g) = [] := by
  intro l
  induction l with
  | nil => rfl
  | cons x xs ih => simp [labelsIn, hg x, ih]

theorem gotosIn_map_nogoto {g : α → Stmt} (hg : ∀ x, gotosInStmt (g x) = []) :
    ∀ (l : List α), gotosIn (l.map g) = [] := by
  intro l
  induction l with
  | nil => rfl
  | cons x xs ih => simp [gotosIn, hg x, ih]

/-- Declaration lowering emits no labels or gotos and leaves the exit counters
untouched. -/
theorem transformDecl_nlg {vd : VarDecls} {kc : KC} {d : ADecl}
    {out : List Stmt} {vd' : VarDecls} {kc' : KC}
    (h : transformDecl vd kc d = .ok (out, vd', kc')) :
    labelsIn out = [] ∧ gotosIn out = [] ∧ kc'.el = kc.el ∧ kc'.ew = kc.ew := by
  cases d with
  | typeOrNumberDecl =>
    simp only [transformDecl, Except.ok.injEq, Prod.mk.injEq] at h
    obtain ⟨h1, -, h3⟩ := h
    subst h1 h3
    exact ⟨rfl, rfl, rfl, rfl⟩
  | unsupportedD tag => exact Except.noConfusion h
  | objectDecl did ids tdecl dflt =>
    cases dflt with
    | none =>
      simp only [transformDecl, Except.ok.injEq, Prod.mk.injEq] at h
      obtain ⟨h1, -, h3⟩ := h
      subst h1 h3
      refine ⟨labelsIn_map_nolabel ?_ ids, gotosIn_map_nogoto ?_ ids, rfl, rfl⟩ <;>
        (intro x; rfl)
    | some e =>
      rw [transformDecl] at h
      cases he : transformExpr (ids.foldl (fun acc nm => vdInsert acc (did, nm) ⟨nm, none, tdecl⟩) vd) e kc with
      | error er => rw [he] at h; exact Except.noConfusion h
      | ok w =>
        obtain ⟨pre, ee, kc1⟩ := w
        simp only [he, Except.ok.injEq, Prod.mk.injEq] at h
        obtain ⟨h1, -, h3⟩ := h
        subst h1 h3
        obtain ⟨e1, e2, e3, e4⟩ := transformExpr_nlg (sizeOf e) e _ kc _ _ _ le_rfl he
        refine ⟨?_, ?_, e3, e4⟩
        · rw [labelsIn_append, e1]
          simp only [List.nil_append]
          refine labelsIn_map_nolabel ?_ ids
          intro x; rfl
        · rw [gotosIn_append, e2]
          simp only [List.nil_append]
          refine gotosIn_map_nogoto ?_ ids
          intro x; rfl

/-- Cumulative `transform_decls`. -/
theorem transformDecls_nlg :
    ∀ (ds : List ADecl) (vd : VarDecls) (kc : KC) (out : List Stmt) (vd' : VarDecls) (kc' : KC),
      transformDecls vd kc ds = .ok (out, vd', kc') →
      labelsIn out = [] ∧ gotosIn out = [] ∧ kc'.el = kc.el ∧ kc'.ew = kc.ew := by
  intro ds
  induction ds with
  | nil =>
    intro vd kc out vd' kc' h
    simp only [transformDecls, Except.ok.injEq, Prod.mk.injEq] at h
    obtain ⟨h1, -, h3⟩ := h
    subst h1 h3
    exact ⟨rfl, rfl, rfl, rfl⟩
  | cons d rest ih =>
    intro vd kc out vd' kc' h
    rw [transformDecls] at h
    cases hd : transformDecl vd kc d with
    | error er => rw [hd] at h; exact Except.noConfusion h
    | ok w =>
      obtain ⟨out1, vd1, kc1⟩ := w
      simp only [hd] at h
      cases hrest : transformDecls vd1 kc1 rest with
      | error er => rw [hrest] at h; exact Except.noConfusion h
      | ok w2 =>
        obtain ⟨out2, vd2, kc2⟩ := w2
        simp only [hrest, Except.ok.injEq, Prod.mk.injEq] at h
        obtain ⟨h1, -, h3⟩ := h
        subst h1 h3
        obtain ⟨a1, a2, a3, a4⟩ := transformDecl_nlg hd
        obtain ⟨b1, b2, b3, b4⟩ := ih vd1 kc1 out2 vd2 kc2 hrest
        exact ⟨by simp [labelsIn_append, a1, b1], by simp [gotosIn_append, a2, b2],
               by omega, by omega⟩

theorem srcLabelsAlts_count_split :
    ∀ (alts : List (List AExpr × List AStmt)) (i : Nat),
      (srcLabelsAlts alts).count i
        = (srcLabelsAltsNO alts).count i + (srcLabelsAltsO alts).count i := by
  intro alts
  induction alts with
  | nil => intro i; rfl
  | cons a rest ih =>
    intro i
    by_cases h : a.1.any isOthersChoice <;>
      simp [srcLabelsAlts, srcLabelsAltsNO, srcLabelsAltsO, h, List.count_append, ih i] <;>
      omega

theorem srcGotosAltsNO_subset :
    ∀ (alts : List (List AExpr × List AStmt)) (g : Nat),
      g ∈ srcGotosAltsNO alts → g ∈ srcGotosAlts alts := by
  intro alts
  induction alts with
  | nil => intro g h; cases h
  | cons a rest ih =>
    intro g h
    by_cases ho : a.1.any isOthersChoice
    · simp only [srcGotosAltsNO, ho, if_pos, List.nil_append] at h
      exact List.mem_append_right _ (ih g h)
    · simp only [srcGotosAltsNO, ho, if_neg, List.mem_append] at h
      rcases h with h | h
      · exact List.mem_append_left _ h
      · exact List.mem_append_right _ (ih g h)

theorem srcGotosAltsO_subset :
    ∀ (alts : List (List AExpr × List AStmt)) (g : Nat),
      g ∈ srcGotosAltsO alts → g ∈ srcGotosAlts alts := by
  intro alts
  induction alts with
  | nil => intro g h; cases h
  | cons a rest ih =>
    intro g h
    by_cases ho : a.1.any isOthersChoice
    · simp only [srcGotosAltsO, ho, if_pos, List.mem_append] at h
      rcases h with h | h
      · exact List.mem_append_left _ h
      · exact List.mem_append_right _ (ih g h)
    · simp only [srcGotosAltsO, ho, if_neg, List.nil_append] at h
      exact List.mem_append_right _ (ih g h)

/-- Every label the lowering emits is among the label declarations collected
by the pre-pass (count-wise: the emitted labels are a sub-multiset of
`findall(LabelDecl)`). -/
theorem srcLabels_count_le_allLabels :
    ∀ (M : Nat),
      (∀ (s : AStmt) (i : Nat), sizeOf s ≤ M →
        (srcLabelsStmt s).count i ≤ (allLabelsStmt s).count i) ∧
      (∀ (ss : List AStmt) (i : Nat), sizeOf ss ≤ M →
        (srcLabels ss).count i ≤ (allLabelsStmts ss).count i) ∧
      (∀ (alts : List (List AExpr × List AStmt)) (i : Nat), sizeOf alts ≤ M →
        (srcLabelsAlts alts).count i ≤ (allLabelsAlts alts).count i) := by
  intro M
  induction M with
  | zero =>
    refine ⟨?_, ?_, ?_⟩
    · intro s i hsz; exfalso; cases s <;> simp_arith at hsz
    · intro ss i hsz
      cases ss with
      | nil => simp [srcLabels, allLabelsStmts]
      | cons a as => exfalso; simp_arith at hsz
    · intro alts i hsz
      cases alts with
      | nil => simp [srcLabelsAlts, allLabelsAlts]
      | cons a as => exfalso; simp_arith at hsz
  | succ M ih =>
    obtain ⟨ihS, ihSS, ihA⟩ := ih
    refine ⟨?_, ?_, ?_⟩
    · intro s i hsz
      cases s with
      | assignS did dtext dty e => simp [srcLabelsStmt, allLabelsStmt]
      | ifS c tb eb =>
        have h1 := ihSS tb i (by simp_arith at hsz ⊢; omega)
        have h2 := ihSS eb i (by simp_arith at hsz ⊢; omega)
        simp only [srcLabelsStmt, allLabelsStmt, List.count_append]
        omega
      | caseS sel alts =>
        exact ihA alts i (by simp_arith at hsz ⊢; omega)
      | loopSt lid b => exact ihSS b i (by simp_arith at hsz ⊢; omega)
      | whileS lid c b => exact ihSS b i (by simp_arith at hsz ⊢; omega)
      | forS b => simp [srcLabelsStmt, allLabelsStmt]
      | labelS did => simp [srcLabelsStmt, allLabelsStmt]
      | gotoS did => simp [srcLabelsStmt, allLabelsStmt]
      | namedS inner => exact ihS inner i (by simp_arith at hsz ⊢; omega)
      | exitS nm cond => simp [srcLabelsStmt, allLabelsStmt]
      | handlerS b => simp [srcLabelsStmt, allLabelsStmt]
      | unsupportedS tag => simp [srcLabelsStmt, allLabelsStmt]
    · intro ss i hsz
      cases ss with
      | nil => simp [srcLabels, allLabelsStmts]
      | cons a as =>
        have h1 := ihS a i (by simp_arith at hsz ⊢; omega)
        have h2 := ihSS as i (by simp_arith at hsz ⊢; omega)
        simp only [srcLabels, allLabelsStmts, List.count_append]
        omega
    · intro alts i hsz
      cases alts with
      | nil => simp [srcLabelsAlts, allLabelsAlts]
      | cons a as =>
        obtain ⟨cs, ss⟩ := a
        have h1 := ihSS ss i (by simp_arith at hsz ⊢; omega)
        have h2 := ihA as i (by simp_arith at hsz ⊢; omega)
        simp only [srcLabelsAlts, allLabelsAlts, List.count_append]
        omega

/-- Counter-endpoint replacement: the invariant only consults the `el`/`ew`
components of its counter interval. -/
theorem StmtsInv_kc {srcL srcG : List Nat} {stack : List (Nat × LabelId)}
    {kc1 kc1' kc2 kc2' : KC} {out : List Stmt}
    (h : StmtsInv srcL srcG stack kc1 kc2 out)
    (e1 : kc1'.el = kc1.el) (e2 : kc1'.ew = kc1.ew)
    (e3 : kc2'.el = kc2.el) (e4 : kc2'.ew = kc2.ew) :
    StmtsInv srcL srcG stack kc1' kc2' out := by
  obtain ⟨a, b, c, d, e, f⟩ := h
  refine ⟨by omega, by omega, c, ?_, ?_, ?_⟩
  · intro n; rw [e1, e3]; exact d n
  · intro n; rw [e2, e4]; exact e n
  · intro g hg
    rcases f g hg with h' | h' | ⟨n, h1', h2', h3'⟩ | ⟨n, h1', h2', h3'⟩
    · exact Or.inl h'
    · exact Or.inr (Or.inl h')
    · exact Or.inr (Or.inr (Or.inl ⟨n, h1', by omega, by omega⟩))
    · exact Or.inr (Or.inr (Or.inr ⟨n, h1', by omega, by omega⟩))

/-- Assembly of a plain loop: body invariant under the pushed stack entry
plus the one emission of the fresh exit label. -/
theorem StmtsInv_loop {Lb Gb : List Nat} {stack : List (Nat × LabelId)} {lid : Nat}
    {kc kc2 : KC} {bs : List Stmt}
    (h : StmtsInv Lb Gb (stack ++ [(lid, LabelId.exitLoop kc.el)])
           ⟨kc.tmp, kc.el + 1, kc.ew⟩ kc2 bs) :
    StmtsInv Lb Gb stack kc kc2 [Stmt.loopS bs, Stmt.label (.exitLoop kc.el)] := by
  obtain ⟨a, b, c, d, e, f⟩ := h
  have ha : kc.el + 1 ≤ kc2.el := a
  have hb : kc.ew ≤ kc2.ew := b
  have hlab : labelsIn [Stmt.loopS bs, Stmt.label (.exitLoop kc.el)]
      = labelsIn bs ++ [LabelId.exitLoop kc.el] := by
    simp [labelsIn, labelsInStmt]
  have hgot : gotosIn [Stmt.loopS bs, Stmt.label (.exitLoop kc.el)] = gotosIn bs := by
    simp [gotosIn, gotosInStmt]
  refine ⟨by omega, by omega, ?_, ?_, ?_, ?_⟩
  · intro i
    rw [hlab, List.count_append]
    have := c i
    simp only [List.count_singleton']
    rw [this]
    simp
  · intro n
    rw [hlab, List.count_append]
    rw [d n]
    simp only [List.count_singleton', LabelId.exitLoop.injEq]
    split_ifs <;> omega
  · intro n
    rw [hlab, List.count_append]
    rw [e n]
    simp only [List.count_singleton']
    have : (LabelId.exitWhile n = LabelId.exitLoop kc.el) = False := by simp
    split_ifs <;> simp_all <;> omega
  · intro g hg
    rw [hgot] at hg
    rcases f g hg with h' | h' | ⟨n, h1', h2', h3'⟩ | ⟨n, h1', h2', h3'⟩
    · exact Or.inl h'
    · rw [stackExits_append, List.mem_append] at h'
      rcases h' with h' | h'
      · exact Or.inr (Or.inl h')
      · simp only [stackExits, List.map_cons, List.map_nil, List.mem_singleton] at h'
        exact Or.inr (Or.inr (Or.inl ⟨kc.el, h', by omega, by omega⟩))
    · exact Or.inr (Or.inr (Or.inl ⟨n, h1', by simp at h2'; omega, h3'⟩))
    · exact Or.inr (Or.inr (Or.inr ⟨n, h1', by simp at h2'; omega, by omega⟩))

/-- Assembly of a while loop: condition pre-statements inside the loop body,
body invariant under the pushed stack entry, the trailing negated assumption
and the one emission of the fresh exit label. -/
theorem StmtsInv_while {Lb Gb : List Nat} {stack : List (Nat × LabelId)} {lid : Nat}
    {kc1 kc3 : KC} {bs cpre : List Stmt} {ce notC : Expr}
    (hc1 : labelsIn cpre = []) (hc2 : gotosIn cpre = [])
    (h : StmtsInv Lb Gb (stack ++ [(lid, LabelId.exitWhile kc1.ew)])
           ⟨kc1.tmp, kc1.el, kc1.ew + 1⟩ kc3 bs) :
    StmtsInv Lb Gb stack kc1 kc3
      [Stmt.loopS (cpre ++ [Stmt.assume ce none] ++ bs),
       Stmt.assume notC none, Stmt.label (.exitWhile kc1.ew)] := by
  obtain ⟨a, b, c, d, e, f⟩ := h
  have ha : kc1.el ≤ kc3.el := a
  have hb : kc1.ew + 1 ≤ kc3.ew := b
  have hlab : labelsIn [Stmt.loopS (cpre ++ [Stmt.assume ce none] ++ bs),
      Stmt.assume notC none, Stmt.label (.exitWhile kc1.ew)]
      = labelsIn bs ++ [LabelId.exitWhile kc1.ew] := by
    simp [labelsIn, labelsInStmt, labelsIn_append, hc1]
  have hgot : gotosIn [Stmt.loopS (cpre ++ [Stmt.assume ce none] ++ bs),
      Stmt.assume notC none, Stmt.label (.exitWhile kc1.ew)] = gotosIn bs := by
    simp [gotosIn, gotosInStmt, gotosIn_append, hc2]
  refine ⟨by omega, by omega, ?_, ?_, ?_, ?_⟩
  · intro i
    rw [hlab, List.count_append, c i]
    simp only [List.count_singleton']
    simp
  · intro n
    rw [hlab, List.count_append, d n]
    simp only [List.count_singleton']
    have : (LabelId.exitLoop n = LabelId.exitWhile kc1.ew) = False := by simp
    split_ifs <;> simp_all <;> omega
  · intro n
    rw [hlab, List.count_append, e n]
    simp only [List.count_singleton', LabelId.exitWhile.injEq]
    split_ifs <;> omega
  · intro g hg
    rw [hgot] at hg
    rcases f g hg with h' | h' | ⟨n, h1', h2', h3'⟩ | ⟨n, h1', h2', h3'⟩
    · exact Or.inl h'
    · rw [stackExits_append, List.mem_append] at h'
      rcases h' with h' | h'
      · exact Or.inr (Or.inl h')
      · simp only [stackExits, List.map_cons, List.map_nil, List.mem_singleton] at h'
        exact Or.inr (Or.inr (Or.inr ⟨kc1.ew, h', by omega, by omega⟩))
    · exact Or.inr (Or.inr (Or.inl ⟨n, h1', by simp at h2'; omega, h3'⟩))
    · exact Or.inr (Or.inr (Or.inr ⟨n, h1', by simp at h2'; omega, by omega⟩))

/-- A single emitted source label. -/
theorem StmtsInv_single_label {stack : List (Nat × LabelId)} {kc : KC} {did : Nat} :
    StmtsInv [did] [] stack kc kc [Stmt.label (.src did)] := by
  refine ⟨le_rfl, le_rfl, ?_, ?_, ?_, ?_⟩
  · intro i
    simp [labelsIn, labelsInStmt, List.count_singleton']
  · intro n
    simp only [labelsIn, labelsInStmt, List.count_singleton', List.append_nil]
    split_ifs <;> simp_all <;> omega
  · intro n
    simp only [labelsIn, labelsInStmt, List.count_singleton', List.append_nil]
    split_ifs <;> simp_all <;> omega
  · intro g hg
    simp [gotosIn, gotosInStmt] at hg

/-- A single emitted goto to a source label. -/
theorem StmtsInv_single_goto {stack : List (Nat × LabelId)} {kc : KC} {did : Nat} :
    StmtsInv [] [did] stack kc kc [Stmt.goto (.src did)] := by
  refine ⟨le_rfl, le_rfl, ?_, ?_, ?_, ?_⟩
  · intro i; simp [labelsIn, labelsInStmt]
  · intro n; simp only [labelsIn, labelsInStmt, List.append_nil]; split_ifs <;> simp_all <;> omega
  · intro n; simp only [labelsIn, labelsInStmt, List.append_nil]; split_ifs <;> simp_all <;> omega
  · intro g hg
    simp only [gotosIn, gotosInStmt, List.append_nil, List.mem_singleton] at hg
    subst hg
    exact Or.inl ⟨did, rfl, List.mem_singleton_self did⟩

/-- A single goto to a loop-stack exit label. -/
theorem StmtsInv_exit_goto {stack : List (Nat × LabelId)} {kc : KC} {lbl : LabelId}
    (h : lbl ∈ stackExits stack) :
    StmtsInv [] [] stack kc kc [Stmt.goto lbl] := by
  refine ⟨le_rfl, le_rfl, ?_, ?_, ?_, ?_⟩
  · intro i; simp [labelsIn, labelsInStmt]
  · intro n; simp only [labelsIn, labelsInStmt, List.append_nil]; split_ifs <;> simp_all <;> omega
  · intro n; simp only [labelsIn, labelsInStmt, List.append_nil]; split_ifs <;> simp_all <;> omega
  · intro g hg
    simp only [gotosIn, gotosInStmt, List.append_nil, List.mem_singleton] at hg
    subst hg
    exact Or.inr (Or.inl h)

/-- Master label/goto invariant of statement lowering: every successful
transform satisfies `StmtsInv` for its source labels, source goto targets,
loop stack and counter interval. -/
theorem transform_inv : ∀ (M : Nat) (vd : VarDecls) (L : List Nat),
    (∀ (s : AStmt) (stack : List (Nat × LabelId)) (kc : KC) (out : List Stmt) (kc' : KC),
       sizeOf s ≤ M → transformStmt vd L s stack kc = .ok (out, kc') →
       StmtsInv (srcLabelsStmt s) (srcGotosStmt s) stack kc kc' out) ∧
    (∀ (ss : List AStmt) (stack : List (Nat × LabelId)) (kc : KC) (out : List Stmt) (kc' : KC),
       sizeOf ss ≤ M → transformStmts vd L ss stack kc = .ok (out, kc') →
       StmtsInv (srcLabels ss) (srcGotos ss) stack kc kc' out) ∧
    (∀ (alts : List (List AExpr × List AStmt)) (stack : List (Nat × LabelId)) (kc : KC)
       (ca : List (List Val × List Stmt)) (kc' : KC),
       sizeOf alts ≤ M → transformCaseAlts vd L alts stack kc = .ok (ca, kc') →
       StmtsInv (srcLabelsAltsNO alts) (srcGotosAltsNO alts) stack kc kc'
         ((ca.map (fun a => a.2)).flatten)) ∧
    (∀ (alts : List (List AExpr × List AStmt)) (stack : List (Nat × LabelId)) (kc : KC)
       (oss : List (List Stmt)) (kc' : KC),
       sizeOf alts ≤ M → transformOthersAlts vd L alts stack kc = .ok (oss, kc') →
       StmtsInv (srcLabelsAltsO alts) (srcGotosAltsO alts) stack kc kc' oss.flatten) := by
  intro M
  induction M with
  | zero =>
    intro vd L
    refine ⟨?_, ?_, ?_, ?_⟩
    · intro s stack kc out kc' hsz
      exfalso; cases s <;> simp_arith at hsz
    · intro ss stack kc out kc' hsz hok
      cases ss with
      | nil =>
        simp only [transformStmts, Except.ok.injEq, Prod.mk.injEq] at hok
        obtain ⟨h1, h2⟩ := hok; subst h1 h2
        exact StmtsInv_of_nlg rfl rfl rfl rfl
      | cons a as => exfalso; simp_arith at hsz
    · intro alts stack kc ca kc' hsz hok
      cases alts with
      | nil =>
        simp only [transformCaseAlts, Except.ok.injEq, Prod.mk.injEq] at hok
        obtain ⟨h1, h2⟩ := hok; subst h1 h2
        exact StmtsInv_of_nlg rfl rfl rfl rfl
      | cons a as => exfalso; simp_arith at hsz
    · intro alts stack kc oss kc' hsz hok
      cases alts with
      | nil =>
        simp only [transformOthersAlts, Except.ok.injEq, Prod.mk.injEq] at hok
        obtain ⟨h1, h2⟩ := hok; subst h1 h2
        exact StmtsInv_of_nlg rfl rfl rfl rfl
      | cons a as => exfalso; simp_arith at hsz
  | succ M ih =>
    intro vd L
    obtain ⟨ihS, ihSS, ihCA, ihOA⟩ := ih vd L
    refine ⟨?_, ?_, ?_, ?_⟩
    · -- transformStmt
      intro s stack kc out kc' hsz hok
      cases s with
      | assignS did dtext dty e =>
        simp only [transformStmt] at hok
        cases he : transformExpr vd e kc with
        | error er => simp only [he] at hok; exact Except.noConfusion hok
        | ok w =>
          obtain ⟨pre, ee, kc1⟩ := w
          simp only [he] at hok
          cases hv : vdLookup vd (did, dtext) with
          | none => simp only [hv] at hok; exact Except.noConfusion hok
          | some v =>
            simp only [hv, Except.ok.injEq, Prod.mk.injEq] at hok
            obtain ⟨h1, h2⟩ := hok; subst h1 h2
            obtain ⟨e1, e2, e3, e4⟩ := transformExpr_nlg (sizeOf e) e vd kc _ _ _ le_rfl he
            refine StmtsInv_mono (StmtsInv_of_nlg ?_ ?_ e3 e4) ?_ ?_
            · simp [labelsIn_append, e1, labelsIn, labelsInStmt]
            · simp [gotosIn_append, e2, gotosIn, gotosInStmt]
            · intro i; simp [srcLabelsStmt]
            · intro i hi; cases hi
      | ifS c tb eb =>
        have hszt : sizeOf tb ≤ M := by simp_arith at hsz ⊢; omega
        have hsze : sizeOf eb ≤ M := by simp_arith at hsz ⊢; omega
        simp only [transformStmt] at hok
        cases ht : transformStmts vd L tb stack kc with
        | error er => simp only [ht] at hok; exact Except.noConfusion hok
        | ok w1 =>
          obtain ⟨ts, kc1⟩ := w1
          simp only [ht] at hok
          cases he2 : transformStmts vd L eb stack kc1 with
          | error er => simp only [he2] at hok; exact Except.noConfusion hok
          | ok w2 =>
            obtain ⟨es, kc2⟩ := w2
            simp only [he2] at hok
            obtain ⟨g1, g2, g3, g4⟩ := genSplitStmt_nlg hok
            have invt := ihSS tb stack kc ts kc1 hszt ht
            have inve := ihSS eb stack kc1 es kc2 hsze he2
            refine StmtsInv_mono
              (StmtsInv_congr (by rw [g1, labelsIn_append]) (by rw [g2, gotosIn_append])
                g3 g4 (StmtsInv_append invt inve)) ?_ ?_
            · intro i; simp [srcLabelsStmt, List.count_append]
            · intro i hi; simpa [srcGotosStmt] using hi
      | caseS sel alts =>
        have hszalts : sizeOf alts ≤ M := by simp_arith at hsz ⊢; omega
        simp only [transformStmt] at hok
        cases hsel : transformExpr vd sel kc with
        | error er => simp only [hsel] at hok; exact Except.noConfusion hok
        | ok w =>
          obtain ⟨cpre, selE, kc1⟩ := w
          simp only [hsel] at hok
          cases hca : transformCaseAlts vd L alts stack kc1 with
          | error er => simp only [hca] at hok; exact Except.noConfusion hok
          | ok w2 =>
            obtain ⟨ca, kc2⟩ := w2
            simp only [hca] at hok
            cases hoa : transformOthersAlts vd L alts stack kc2 with
            | error er => simp only [hoa] at hok; exact Except.noConfusion hok
            | ok w3 =>
              obtain ⟨oss, kc3⟩ := w3
              simp only [hoa] at hok
              cases hmc : mapComp (genCaseCondition selE) (ca.map (fun a => a.1)) with
              | error er => simp only [hmc] at hok; exact Except.noConfusion hok
              | ok altsConds =>
                simp only [hmc] at hok
                cases hred : reduceL orBuilder altsConds with
                | none => simp only [hred] at hok; exact Except.noConfusion hok
                | some disj =>
                  simp only [hred, Except.ok.injEq, Prod.mk.injEq] at hok
                  obtain ⟨h1, h2⟩ := hok; subst h1 h2
                  have hlen : altsConds.length = ca.length := by
                    have := mapComp_length _ _ hmc
                    simpa using this
                  obtain ⟨s1, s2, s3, s4⟩ :=
                    transformExpr_nlg (sizeOf sel) sel vd kc _ _ _ le_rfl hsel
                  have invCA := ihCA alts stack kc1 ca kc2 hszalts hca
                  have invOA := ihOA alts stack kc2 oss kc3 hszalts hoa
                  have base : StmtsInv [] [] stack kc kc1 ([] : List Stmt) :=
                    StmtsInv_of_nlg rfl rfl s3 s4
                  have chain := StmtsInv_append base (StmtsInv_append invCA invOA)
                  refine StmtsInv_mono (StmtsInv_congr ?_ ?_ rfl rfl chain) ?_ ?_
                  · rw [labelsIn_append, s1]
                    simp only [List.nil_append, labelsIn, labelsInStmt, List.append_nil]
                    rw [labelsInBranches_append, labelsInBranches_zip_assume _ _ hlen,
                        labelsInBranches_map_assume, labelsIn_append,
                        labelsIn_flatten, labelsIn_flatten]
                  · rw [gotosIn_append, s2]
                    simp only [List.nil_append, gotosIn, gotosInStmt, List.append_nil]
                    rw [gotosInBranches_append, gotosInBranches_zip_assume _ _ hlen,
                        gotosInBranches_map_assume, gotosIn_append,
                        gotosIn_flatten, gotosIn_flatten]
                  · intro i
                    simp [srcLabelsStmt, List.count_append, srcLabelsAlts_count_split]
                  · intro i hi
                    simp only [List.nil_append, List.mem_append] at hi
                    simp only [srcGotosStmt]
                    rcases hi with hi | hi
                    · exact srcGotosAltsNO_subset alts i hi
                    · exact srcGotosAltsO_subset alts i hi
      | loopSt lid body =>
        have hszb : sizeOf body ≤ M := by simp_arith at hsz ⊢; omega
        simp only [transformStmt] at hok
        cases hb : transformStmts vd L body (stack ++ [(lid, LabelId.exitLoop kc.el)])
            ⟨kc.tmp, kc.el + 1, kc.ew⟩ with
        | error er => simp only [hb] at hok; exact Except.noConfusion hok
        | ok w =>
          obtain ⟨bs, kc2⟩ := w
          simp only [hb, Except.ok.injEq, Prod.mk.injEq] at hok
          obtain ⟨h1, h2⟩ := hok; subst h1 h2
          have invb := ihSS body _ _ bs _ hszb hb
          refine StmtsInv_mono (StmtsInv_loop invb) ?_ ?_
          · intro i; simp [srcLabelsStmt]
          · intro i hi; simpa [srcGotosStmt] using hi
      | whileS lid c body =>
        have hszb : sizeOf body ≤ M := by simp_arith at hsz ⊢; omega
        simp only [transformStmt] at hok
        cases hc : transformExpr vd c kc with
        | error er => simp only [hc] at hok; exact Except.noConfusion hok
        | ok w =>
          obtain ⟨cpre, ce, kc1⟩ := w
          simp only [hc] at hok
          cases hb : transformStmts vd L body (stack ++ [(lid, LabelId.exitWhile kc1.ew)])
              ⟨kc1.tmp, kc1.el, kc1.ew + 1⟩ with
          | error er => simp only [hb] at hok; exact Except.noConfusion hok
          | ok w2 =>
            obtain ⟨bs, kc3⟩ := w2
            simp only [hb, Except.ok.injEq, Prod.mk.injEq] at hok
            obtain ⟨h1, h2⟩ := hok; subst h1 h2
            obtain ⟨c1, c2, c3, c4⟩ := transformExpr_nlg (sizeOf c) c vd kc _ _ _ le_rfl hc
            have invb := ihSS body _ _ bs _ hszb hb
            have w : StmtsInv (srcLabels body) (srcGotos body) stack kc1 kc3
                [Stmt.loopS (cpre ++ [Stmt.assume ce none] ++ bs),
                 Stmt.assume (.un .notB ce ce.hint) none,
                 Stmt.label (.exitWhile kc1.ew)] :=
              StmtsInv_while c1 c2 invb
            refine StmtsInv_mono (StmtsInv_kc w c3.symm c4.symm rfl rfl) ?_ ?_
            · intro i; simp [srcLabelsStmt]
            · intro i hi; simpa [srcGotosStmt] using hi
      | forS body =>
        simp only [transformStmt, Except.ok.injEq, Prod.mk.injEq] at hok
        obtain ⟨h1, h2⟩ := hok; subst h1 h2
        refine StmtsInv_mono (StmtsInv_of_nlg rfl rfl rfl rfl) ?_ ?_
        · intro i; simp [srcLabelsStmt]
        · intro i hi; cases hi
      | labelS did =>
        simp only [transformStmt] at hok
        by_cases hd : L.contains did
        · rw [if_pos hd] at hok
          simp only [Except.ok.injEq, Prod.mk.injEq] at hok
          obtain ⟨h1, h2⟩ := hok; subst h1 h2
          refine StmtsInv_mono StmtsInv_single_label ?_ ?_
          · intro i; simp [srcLabelsStmt]
          · intro i hi; cases hi
        · rw [if_neg hd] at hok; exact Except.noConfusion hok
      | gotoS did =>
        simp only [transformStmt] at hok
        by_cases hd : L.contains did
        · rw [if_pos hd] at hok
          simp only [Except.ok.injEq, Prod.mk.injEq] at hok
          obtain ⟨h1, h2⟩ := hok; subst h1 h2
          refine StmtsInv_mono StmtsInv_single_goto ?_ ?_
          · intro i; simp [srcLabelsStmt]
          · intro i hi; simpa [srcGotosStmt] using hi
        · rw [if_neg hd] at hok; exact Except.noConfusion hok
      | namedS inner =>
        simp only [transformStmt] at hok
        have := ihS inner stack kc out kc' (by simp_arith at hsz ⊢; omega) hok
        refine StmtsInv_mono this ?_ ?_
        · intro i; simp [srcLabelsStmt]
        · intro i hi; simpa [srcGotosStmt] using hi
      | exitS lname cond =>
        cases lname with
        | none =>
          simp only [transformStmt] at hok
          cases hlast : stack.getLast? with
          | none => simp only [hlast] at hok; exact Except.noConfusion hok
          | some p =>
            obtain ⟨pl, lbl⟩ := p
            simp only [hlast] at hok
            have hmem : lbl ∈ stackExits stack := by
              have hm := List.mem_of_mem_getLast? hlast
              exact List.mem_map_of_mem (fun q => q.2) hm
            cases cond with
            | none =>
              simp only [Except.ok.injEq, Prod.mk.injEq] at hok
              obtain ⟨h1, h2⟩ := hok; subst h1 h2
              refine StmtsInv_mono (StmtsInv_exit_goto hmem) ?_ ?_
              · intro i; simp [srcLabelsStmt]
              · intro i hi; cases hi
            | some c =>
              obtain ⟨g1, g2, g3, g4⟩ := genSplitStmt_nlg hok
              refine StmtsInv_mono
                (StmtsInv_congr (by rw [g1]; simp [labelsIn, labelsInStmt])
                  (by rw [g2]; simp [gotosIn, gotosInStmt])
                  g3 g4 (StmtsInv_exit_goto hmem)) ?_ ?_
              · intro i; simp [srcLabelsStmt]
              · intro i hi; cases hi
        | some nm =>
          simp only [transformStmt] at hok
          cases hf : stack.find? (fun p => p.1 == nm) with
          | none => simp only [hf] at hok; exact Except.noConfusion hok
          | some p =>
            obtain ⟨pl, lbl⟩ := p
            simp only [hf] at hok
            have hmem : lbl ∈ stackExits stack := by
              have hm := List.mem_of_find?_eq_some hf
              exact List.mem_map_of_mem (fun q => q.2) hm
            cases cond with
            | none =>
              simp only [Except.ok.injEq, Prod.mk.injEq] at hok
              obtain ⟨h1, h2⟩ := hok; subst h1 h2
              refine StmtsInv_mono (StmtsInv_exit_goto hmem) ?_ ?_
              · intro i; simp [srcLabelsStmt]
              · intro i hi; cases hi
            | some c =>
              obtain ⟨g1, g2, g3, g4⟩ := genSplitStmt_nlg hok
              refine StmtsInv_mono
                (StmtsInv_congr (by rw [g1]; simp [labelsIn, labelsInStmt])
                  (by rw [g2]; simp [gotosIn, gotosInStmt])
                  g3 g4 (StmtsInv_exit_goto hmem)) ?_ ?_
              · intro i; simp [srcLabelsStmt]
              · intro i hi; cases hi
      | handlerS body =>
        simp only [transformStmt, Except.ok.injEq, Prod.mk.injEq] at hok
        obtain ⟨h1, h2⟩ := hok; subst h1 h2
        refine StmtsInv_mono (StmtsInv_of_nlg rfl rfl rfl rfl) ?_ ?_
        · intro i; simp [srcLabelsStmt]
        · intro i hi; cases hi
      | unsupportedS tag =>
        simp only [transformStmt] at hok; exact Except.noConfusion hok
    · -- transformStmts
      intro ss stack kc out kc' hsz hok
      cases ss with
      | nil =>
        simp only [transformStmts, Except.ok.injEq, Prod.mk.injEq] at hok
        obtain ⟨h1, h2⟩ := hok; subst h1 h2
        exact StmtsInv_of_nlg rfl rfl rfl rfl
      | cons s rest =>
        have hszs : sizeOf s ≤ M := by simp_arith at hsz ⊢; omega
        have hszr : sizeOf rest ≤ M := by simp_arith at hsz ⊢; omega
        rw [transformStmts] at hok
        cases h1 : transformStmt vd L s stack kc with
        | error er => rw [h1] at hok; exact Except.noConfusion hok
        | ok w1 =>
          obtain ⟨out1, kc1⟩ := w1
          simp only [h1] at hok
          cases h2 : transformStmts vd L rest stack kc1 with
          | error er => rw [h2] at hok; exact Except.noConfusion hok
          | ok w2 =>
            obtain ⟨out2, kc2⟩ := w2
            simp only [h2, Except.ok.injEq, Prod.mk.injEq] at hok
            obtain ⟨ho, hk⟩ := hok; subst ho hk
            have inv1 := ihS s stack kc out1 kc1 hszs h1
            have inv2 := ihSS rest stack kc1 out2 kc2 hszr h2
            refine StmtsInv_mono (StmtsInv_append inv1 inv2) ?_ ?_
            · intro i; simp [srcLabels, List.count_append]
            · intro i hi; simpa [srcGotos] using hi
    · -- transformCaseAlts
      intro alts stack kc ca kc' hsz hok
      cases alts with
      | nil =>
        simp only [transformCaseAlts, Except.ok.injEq, Prod.mk.injEq] at hok
        obtain ⟨h1, h2⟩ := hok; subst h1 h2
        exact StmtsInv_of_nlg rfl rfl rfl rfl
      | cons a rest =>
        obtain ⟨cs, ss⟩ := a
        have hszss : sizeOf ss ≤ M := by simp_arith at hsz ⊢; omega
        have hszr : sizeOf rest ≤ M := by simp_arith at hsz ⊢; omega
        rw [transformCaseAlts] at hok
        by_cases ho : cs.any isOthersChoice
        · rw [if_pos ho] at hok
          have := ihCA rest stack kc ca kc' hszr hok
          refine StmtsInv_mono this ?_ ?_
          · intro i; simp [srcLabelsAltsNO, ho]
          · intro i hi; simp only [srcGotosAltsNO, ho, if_pos, List.nil_append]; exact hi
        · rw [if_neg ho] at hok
          cases hev : evalChoices vd cs kc with
          | error er => rw [hev] at hok; exact Except.noConfusion hok
          | ok w1 =>
            obtain ⟨vals, kc1⟩ := w1
            simp only [hev] at hok
            cases hss : transformStmts vd L ss stack kc1 with
            | error er => rw [hss] at hok; exact Except.noConfusion hok
            | ok w2 =>
              obtain ⟨outS, kc2⟩ := w2
              simp only [hss] at hok
              cases hrest : transformCaseAlts vd L rest stack kc2 with
              | error er => rw [hrest] at hok; exact Except.noConfusion hok
              | ok w3 =>
                obtain ⟨restAlts, kc3⟩ := w3
                simp only [hrest, Except.ok.injEq, Prod.mk.injEq] at hok
                obtain ⟨hc, hk⟩ := hok; subst hc hk
                obtain ⟨ev1, ev2⟩ := evalChoices_exit_counters cs kc vals kc1 hev
                have invS := ihSS ss stack kc1 outS kc2 hszss hss
                have invR := ihCA rest stack kc2 restAlts kc3 hszr hrest
                have base : StmtsInv [] [] stack kc kc1 ([] : List Stmt) :=
                  StmtsInv_of_nlg rfl rfl ev1 ev2
                have chain := StmtsInv_append base (StmtsInv_append invS invR)
                refine StmtsInv_mono (StmtsInv_congr ?_ ?_ rfl rfl chain) ?_ ?_
                · simp [labelsIn_append]
                · simp [gotosIn_append]
                · intro i; simp [srcLabelsAltsNO, ho, List.count_append]
                · intro i hi
                  simp only [List.nil_append, List.mem_append] at hi
                  simp only [srcGotosAltsNO, ho, if_neg, List.mem_append]
                  exact hi
    · -- transformOthersAlts
      intro alts stack kc oss kc' hsz hok
      cases alts with
      | nil =>
        simp only [transformOthersAlts, Except.ok.injEq, Prod.mk.injEq] at hok
        obtain ⟨h1, h2⟩ := hok; subst h1 h2
        exact StmtsInv_of_nlg rfl rfl rfl rfl
      | cons a rest =>
        obtain ⟨cs, ss⟩ := a
        have hszss : sizeOf ss ≤ M := by simp_arith at hsz ⊢; omega
        have hszr : sizeOf rest ≤ M := by simp_arith at hsz ⊢; omega
        rw [transformOthersAlts] at hok
        by_cases ho : cs.any isOthersChoice
        · rw [if_pos ho] at hok
          cases hss : transformStmts vd L ss stack kc with
          | error er => rw [hss] at hok; exact Except.noConfusion hok
          | ok w1 =>
            obtain ⟨outS, kc1⟩ := w1
            simp only [hss] at hok
            cases hrest : transformOthersAlts vd L rest stack kc1 with
            | error er => rw [hrest] at hok; exact Except.noConfusion hok
            | ok w2 =>
              obtain ⟨restStmts, kc2⟩ := w2
              simp only [hrest, Except.ok.injEq, Prod.mk.injEq] at hok
              obtain ⟨hc, hk⟩ := hok; subst hc hk
              have invS := ihSS ss stack kc outS kc1 hszss hss
              have invR := ihOA rest stack kc1 restStmts kc2 hszr hrest
              refine StmtsInv_mono (StmtsInv_congr ?_ ?_ rfl rfl (StmtsInv_append invS invR)) ?_ ?_
              · simp [labelsIn_append]
              · simp [gotosIn_append]
              · intro i; simp [srcLabelsAltsO, ho, List.count_append]
              · intro i hi
                simp only [List.mem_append] at hi
                simp only [srcGotosAltsO, ho, if_pos, List.mem_append]
                exact hi
        · rw [if_neg ho] at hok
          have := ihOA rest stack kc oss kc' hszr hok
          refine StmtsInv_mono this ?_ ?_
          · intro i; simp [srcLabelsAltsO, ho]
          · intro i hi; simp only [srcGotosAltsO, ho, if_neg, List.nil_append]; exact hi

/-- C9: for every program the lowering produces from a subprogram whose label
declarations are pairwise distinct and whose emitted gotos all target labels
that the lowering emits (both guaranteed for legal Ada input: label names are
unique per body, and a goto cannot jump into a construct — such as a for-loop
or exception-handler body — that the lowering drops), every `Goto` target has
exactly one matching `Label` statement in the same `Program`: source labels
from the singleton pre-pass nodes, and each loop's synthesized exit label
emitted exactly once immediately after its loop. -/
theorem C9_goto_targets_unique :
    ∀ (subp : ASubp) (prog : Program),
      genIr subp = .ok prog →
      (allLabelsStmts subp.stmts).Nodup →
      (∀ i, i ∈ srcGotos subp.stmts → i ∈ srcLabels subp.stmts) →
      ∀ g ∈ gotosIn prog.stmts, (labelsIn prog.stmts).count g = 1 := by
  intro subp prog hok hnodup hcov g hg
  rw [genIr] at hok
  cases hd : transformDecls [] KC.init subp.decls with
  | error e => rw [hd] at hok; exact Except.noConfusion hok
  | ok w =>
    obtain ⟨ds, vd, kc0⟩ := w
    simp only [hd] at hok
    cases hs : transformStmts vd (allLabelsStmts subp.stmts) subp.stmts [] kc0 with
    | error e => rw [hs] at hok; exact Except.noConfusion hok
    | ok w2 =>
      obtain ⟨ss, kcF⟩ := w2
      simp only [hs, Except.ok.injEq] at hok
      subst hok
      obtain ⟨d1, d2, d3, d4⟩ := transformDecls_nlg subp.decls _ _ _ _ _ hd
      have inv := (transform_inv (sizeOf subp.stmts) vd (allLabelsStmts subp.stmts)).2.1
        subp.stmts [] kc0 ss kcF le_rfl hs
      obtain ⟨a, b, c, d, e, f⟩ := inv
      dsimp only at hg ⊢
      rw [gotosIn_append, d2, List.nil_append] at hg
      rw [labelsIn_append, d1, List.nil_append]
      rcases f g hg with ⟨i, hgi, hmem⟩ | hst | ⟨n, hn, h2', h3'⟩ | ⟨n, hn, h2', h3'⟩
      · subst hgi
        rw [c i]
        have hle := ((srcLabels_count_le_allLabels (sizeOf subp.stmts)).2.1)
          subp.stmts i le_rfl
        have hub : (allLabelsStmts subp.stmts).count i ≤ 1 :=
          List.nodup_iff_count_le_one.mp hnodup i
        have hlb : 0 < (srcLabels subp.stmts).count i :=
          List.count_pos_iff.mpr (hcov i hmem)
        omega
      · simp [stackExits] at hst
      · subst hn
        rw [d n, if_pos ⟨h2', h3'⟩]
      · subst hn
        rw [e n, if_pos ⟨h2', h3'⟩]

/-- C9 witness: the invariant instantiated on `c9_subp`, giving count one for
both the source label and the loop's synthesized exit label. -/
theorem C9_goto_targets_unique_witness :
    genIr c9_subp = .ok c9_prog ∧
    (labelsIn c9_prog.stmts).count (.src 3) = 1 ∧
    (labelsIn c9_prog.stmts).count (.exitLoop 0) = 1 :=
  ⟨rfl,
   C9_goto_targets_unique c9_subp c9_prog rfl (by decide) (by decide)
     (.src 3) (by decide),
   C9_goto_targets_unique c9_subp c9_prog rfl (by decide) (by decide)
     (.exitLoop 0) (by decide)⟩

end LAL
